import Mathlib

/-!
# Verification of the Blog-Ai client-side article pipeline

A shallow embedding of the core of the Blog-Ai repository (a browser-based
article authoring tool) together with proofs about its behaviour:

* the share-link codec of `ArticleView.handleShareLink` / `App.handleHashChange`
  (UTF-8 encoding, base64 `btoa`/`atob`, a JSON serializer/parser modelling
  `JSON.stringify`/`JSON.parse` restricted to the fragment the app produces —
  integer-valued numbers, since the embedding does not model floats);
* the article session state updates of `App.tsx` (`handleGenerate`,
  `handleGenerateMore`, `handleHashChange`) as pure state transformers driven
  by an explicit event order (the arrival order of asynchronous responses);
* the localStorage history logic of `ArticleView.saveArticle`;
* the request construction of `geminiService.generateMoreContent`;
* the topic extraction of `geminiService.generateTrendingTopics`;
* the image-part scan of `geminiService.generateBlogImage`.

JavaScript strings are modelled as `List Char` (Unicode scalar sequences; the
UTF-16 representation and lone surrogates are outside the embedding).
-/

/-! ## UTF-8

`handleShareLink` computes `btoa(encodeURIComponent(json).replace(/%..·/, byte))`:
the inner composition percent-encodes the string as UTF-8 and immediately turns
every `%XX` back into a raw byte, so its net effect is the UTF-8 byte sequence
of the string.  `handleHashChange` inverts it with
`decodeURIComponent(atob(t).split('').map(c => '%' + hex(c)).join(''))`, whose
net effect is UTF-8 decoding (`decodeURIComponent` throws on invalid
sequences).  We model the two net effects directly. -/

def utf8EncodeChar (c : Char) : List Nat :=
  let n := c.toNat
  if n < 0x80 then [n]
  else if n < 0x800 then [0xC0 + n / 64, 0x80 + n % 64]
  else if n < 0x10000 then [0xE0 + n / 4096, 0x80 + n / 64 % 64, 0x80 + n % 64]
  else [0xF0 + n / 262144, 0x80 + n / 4096 % 64, 0x80 + n / 64 % 64, 0x80 + n % 64]

def utf8Encode (s : List Char) : List Nat := s.flatMap utf8EncodeChar

/-- A UTF-8 continuation byte. -/
def utf8Cont (b : Nat) : Bool := decide (0x80 ≤ b ∧ b < 0xC0)

/-- Decode one UTF-8 sequence from the front of a byte string, rejecting
truncated sequences, stray continuation bytes, overlong encodings, surrogate
code points and values beyond U+10FFFF — exactly the inputs
`decodeURIComponent` throws `URIError` on. -/
def utf8DecodeChar : List Nat → Option (Char × List Nat)
  | [] => none
  | b :: rest =>
    if b < 0x80 then some (Char.ofNat b, rest)
    else if b < 0xC2 then none
    else if b < 0xE0 then
      match rest with
      | b2 :: rest2 =>
        if utf8Cont b2 then some (Char.ofNat ((b - 0xC0) * 64 + (b2 - 0x80)), rest2)
        else none
      | [] => none
    else if b < 0xF0 then
      match rest with
      | b2 :: b3 :: rest3 =>
        if utf8Cont b2 && utf8Cont b3 then
          if 0xD800 ≤ (b - 0xE0) * 4096 + (b2 - 0x80) * 64 + (b3 - 0x80) ∧
              (b - 0xE0) * 4096 + (b2 - 0x80) * 64 + (b3 - 0x80) < 0xE000 then none
          else if (b - 0xE0) * 4096 + (b2 - 0x80) * 64 + (b3 - 0x80) < 0x800 then none
          else some (Char.ofNat ((b - 0xE0) * 4096 + (b2 - 0x80) * 64 + (b3 - 0x80)), rest3)
        else none
      | _ => none
    else if b < 0xF5 then
      match rest with
      | b2 :: b3 :: b4 :: rest4 =>
        if utf8Cont b2 && utf8Cont b3 && utf8Cont b4 then
          if (b - 0xF0) * 262144 + (b2 - 0x80) * 4096 + (b3 - 0x80) * 64 + (b4 - 0x80) < 0x10000 ∨
              0x110000 ≤ (b - 0xF0) * 262144 + (b2 - 0x80) * 4096 + (b3 - 0x80) * 64 + (b4 - 0x80)
            then none
          else some (Char.ofNat ((b - 0xF0) * 262144 + (b2 - 0x80) * 4096 + (b3 - 0x80) * 64
            + (b4 - 0x80)), rest4)
        else none
      | _ => none
    else none

/-- Decode a whole byte string; the fuel only needs to cover the number of
decoded characters, and each step consumes at least one byte. -/
def utf8DecodeLoop : Nat → List Nat → Option (List Char)
  | _, [] => some []
  | 0, _ :: _ => none
  | fuel + 1, b :: rest =>
    match utf8DecodeChar (b :: rest) with
    | some (c, rest2) => (utf8DecodeLoop fuel rest2).map (fun cs => c :: cs)
    | none => none

def utf8Decode (bs : List Nat) : Option (List Char) := utf8DecodeLoop bs.length bs

theorem char_toNat_valid (c : Char) :
    c.toNat < 0xD800 ∨ (0xE000 ≤ c.toNat ∧ c.toNat < 0x110000) := by
  rcases c.valid with h | ⟨h1, h2⟩
  · exact Or.inl h
  · exact Or.inr ⟨h1, h2⟩

theorem utf8DecodeChar_encodeChar (c : Char) (bs : List Nat) :
    utf8DecodeChar (utf8EncodeChar c ++ bs) = some (c, bs) := by
  have hv := char_toNat_valid c
  have hofnat := Char.ofNat_toNat c
  by_cases h1 : c.toNat < 0x80
  · simp only [utf8EncodeChar, if_pos h1, List.cons_append, List.nil_append, utf8DecodeChar,
      hofnat]
  · by_cases h2 : c.toNat < 0x800
    · have e2 : ¬ (0xC0 + c.toNat / 64 < 0x80) := by omega
      have e3 : ¬ (0xC0 + c.toNat / 64 < 0xC2) := by omega
      have e4 : 0xC0 + c.toNat / 64 < 0xE0 := by omega
      have e5 : utf8Cont (0x80 + c.toNat % 64) = true := by
        simp only [utf8Cont, decide_eq_true_eq]; omega
      have e6 : (0xC0 + c.toNat / 64 - 0xC0) * 64 + (0x80 + c.toNat % 64 - 0x80) = c.toNat := by
        omega
      simp only [utf8EncodeChar, if_neg h1, if_pos h2, List.cons_append, List.nil_append,
        utf8DecodeChar, if_neg e2, if_neg e3, if_pos e4, e5, if_pos, e6, hofnat]
    · by_cases h3 : c.toNat < 0x10000
      · have e2 : ¬ (0xE0 + c.toNat / 4096 < 0x80) := by omega
        have e3 : ¬ (0xE0 + c.toNat / 4096 < 0xC2) := by omega
        have e4 : ¬ (0xE0 + c.toNat / 4096 < 0xE0) := by omega
        have e5 : 0xE0 + c.toNat / 4096 < 0xF0 := by omega
        have e6 : utf8Cont (0x80 + c.toNat / 64 % 64) = true := by
          simp only [utf8Cont, decide_eq_true_eq]; omega
        have e7 : utf8Cont (0x80 + c.toNat % 64) = true := by
          simp only [utf8Cont, decide_eq_true_eq]; omega
        have e8 : (0xE0 + c.toNat / 4096 - 0xE0) * 4096 + (0x80 + c.toNat / 64 % 64 - 0x80) * 64
            + (0x80 + c.toNat % 64 - 0x80) = c.toNat := by omega
        have e9 : ¬ (0xD800 ≤ c.toNat ∧ c.toNat < 0xE000) := by omega
        have e10 : ¬ (c.toNat < 0x800) := h2
        simp only [utf8EncodeChar, if_neg h1, if_neg h2, if_pos h3, List.cons_append,
          List.nil_append, utf8DecodeChar, if_neg e2, if_neg e3, if_neg e4, if_pos e5, e6, e7,
          Bool.and_self, if_pos, e8, if_neg e9, if_neg e10, hofnat]
      · have hub : c.toNat < 0x110000 := by omega
        have e2 : ¬ (0xF0 + c.toNat / 262144 < 0x80) := by omega
        have e3 : ¬ (0xF0 + c.toNat / 262144 < 0xC2) := by omega
        have e4 : ¬ (0xF0 + c.toNat / 262144 < 0xE0) := by omega
        have e5 : ¬ (0xF0 + c.toNat / 262144 < 0xF0) := by omega
        have e6 : 0xF0 + c.toNat / 262144 < 0xF5 := by omega
        have e7 : utf8Cont (0x80 + c.toNat / 4096 % 64) = true := by
          simp only [utf8Cont, decide_eq_true_eq]; omega
        have e8 : utf8Cont (0x80 + c.toNat / 64 % 64) = true := by
          simp only [utf8Cont, decide_eq_true_eq]; omega
        have e9 : utf8Cont (0x80 + c.toNat % 64) = true := by
          simp only [utf8Cont, decide_eq_true_eq]; omega
        have e10 : (0xF0 + c.toNat / 262144 - 0xF0) * 262144
            + (0x80 + c.toNat / 4096 % 64 - 0x80) * 4096
            + (0x80 + c.toNat / 64 % 64 - 0x80) * 64 + (0x80 + c.toNat % 64 - 0x80) = c.toNat := by
          omega
        have e11 : ¬ ((0xF0 + c.toNat / 262144 - 0xF0) * 262144
            + (0x80 + c.toNat / 4096 % 64 - 0x80) * 4096
            + (0x80 + c.toNat / 64 % 64 - 0x80) * 64 + (0x80 + c.toNat % 64 - 0x80) < 0x10000 ∨
            0x110000 ≤ (0xF0 + c.toNat / 262144 - 0xF0) * 262144
            + (0x80 + c.toNat / 4096 % 64 - 0x80) * 4096
            + (0x80 + c.toNat / 64 % 64 - 0x80) * 64 + (0x80 + c.toNat % 64 - 0x80)) := by
          omega
        simp only [utf8EncodeChar, if_neg h1, if_neg h2, if_neg h3, List.cons_append,
          List.nil_append, utf8DecodeChar, if_neg e2, if_neg e3, if_neg e4, if_neg e5, if_pos e6,
          e7, e8, e9, Bool.and_self, if_pos, if_neg e11, e10, hofnat]
        rw [if_neg (show ¬ (c.toNat < 0x10000 ∨ 0x110000 ≤ c.toNat) from by omega)]

theorem utf8EncodeChar_ne_nil (c : Char) : utf8EncodeChar c ≠ [] := by
  rw [utf8EncodeChar]
  split <;> simp_all <;> split <;> simp_all
  split <;> simp_all

theorem utf8DecodeLoop_encode (s : List Char) :
    ∀ fuel, s.length ≤ fuel → utf8DecodeLoop fuel (utf8Encode s) = some s := by
  induction s with
  | nil => intro fuel _; cases fuel <;> rfl
  | cons c cs ih =>
    intro fuel hfuel
    cases fuel with
    | zero => simp at hfuel
    | succ f =>
      have hstep := utf8DecodeChar_encodeChar c (utf8Encode cs)
      have henc : utf8Encode (c :: cs) = utf8EncodeChar c ++ utf8Encode cs := by
        simp [utf8Encode]
      obtain ⟨b, t, hbt⟩ : ∃ b t, utf8EncodeChar c ++ utf8Encode cs = b :: t := by
        cases h : utf8EncodeChar c with
        | nil => exact absurd h (utf8EncodeChar_ne_nil c)
        | cons x xs => exact ⟨x, xs ++ utf8Encode cs, by simp [h]⟩
      rw [henc, hbt, utf8DecodeLoop, ← hbt, hstep]
      simp [ih f (by simpa using hfuel)]

theorem utf8Encode_length_ge (s : List Char) : s.length ≤ (utf8Encode s).length := by
  induction s with
  | nil => simp [utf8Encode]
  | cons c cs ih =>
    rw [utf8Encode, List.flatMap_cons, List.length_append, ← utf8Encode]
    have : 1 ≤ (utf8EncodeChar c).length := by
      cases h : utf8EncodeChar c with
      | nil => exact absurd h (utf8EncodeChar_ne_nil c)
      | cons x xs => simp
    simp only [List.length_cons]
    omega

/-- The UTF-8 codec round-trip. -/
theorem utf8Decode_encode (s : List Char) : utf8Decode (utf8Encode s) = some s :=
  utf8DecodeLoop_encode s _ (utf8Encode_length_ge s)

theorem utf8EncodeChar_lt (c : Char) : ∀ b ∈ utf8EncodeChar c, b < 256 := by
  intro b hb
  have hv := char_toNat_valid c
  rw [utf8EncodeChar] at hb
  split at hb
  · simp only [List.mem_cons, List.not_mem_nil, or_false] at hb
    omega
  · split at hb
    · simp only [List.mem_cons, List.not_mem_nil, or_false] at hb
      rcases hb with h | h <;> omega
    · split at hb
      · simp only [List.mem_cons, List.not_mem_nil, or_false] at hb
        rcases hb with h | h | h <;> omega
      · simp only [List.mem_cons, List.not_mem_nil, or_false] at hb
        rcases hb with h | h | h | h <;> omega

theorem utf8Encode_lt (s : List Char) : ∀ b ∈ utf8Encode s, b < 256 := by
  intro b hb
  rw [utf8Encode, List.mem_flatMap] at hb
  obtain ⟨c, _, hc⟩ := hb
  exact utf8EncodeChar_lt c b hc

/-! ## Base64 (`btoa` / `atob`)

`btoa` maps a byte string (characters < 256) to padded standard base64.
`atob` implements the WHATWG "forgiving base64" decode: ASCII whitespace is
removed; when the length is a multiple of four, up to two trailing `=` are
dropped; a remaining length of 1 mod 4, or any character outside the alphabet
(including a leftover `=`), is an error. -/

def b64Alphabet : List Char :=
  "ABCDEFGHIJKLMNOPQRSTUVWXYZabcdefghijklmnopqrstuvwxyz0123456789+/".data

def b64Char (n : Nat) : Char := b64Alphabet.getD n 'A'

def b64Index (c : Char) : Option Nat := b64Alphabet.findIdx? (fun d => d = c)

def b64Encode : List Nat → List Char
  | [] => []
  | [b1] => [b64Char (b1 / 4), b64Char (b1 % 4 * 16), '=', '=']
  | [b1, b2] => [b64Char (b1 / 4), b64Char (b1 % 4 * 16 + b2 / 16), b64Char (b2 % 16 * 4), '=']
  | b1 :: b2 :: b3 :: rest =>
    b64Char (b1 / 4) :: b64Char (b1 % 4 * 16 + b2 / 16) :: b64Char (b2 % 16 * 4 + b3 / 64)
      :: b64Char (b3 % 64) :: b64Encode rest

/-- ASCII whitespace stripped by forgiving-base64 decoding. -/
def b64Ws (c : Char) : Bool := decide (c = ' ' ∨ c = '\t' ∨ c = '\n' ∨ c = '\x0c' ∨ c = '\r')

/-- Drop up to two trailing `=` characters. -/
def b64DropPad (s : List Char) : List Char :=
  let r := s.reverse
  let r1 := if r.head? = some '=' then r.tail else r
  let r2 := if r1.head? = some '=' then r1.tail else r1
  r2.reverse

/-- Reassemble bytes out of a sextet string whose length is 0, 2 or 3 mod 4. -/
def b64Assemble : List Nat → List Nat
  | [] => []
  | [_] => []
  | [v1, v2] => [v1 * 4 + v2 / 16]
  | [v1, v2, v3] => [v1 * 4 + v2 / 16, v2 % 16 * 16 + v3 / 4]
  | v1 :: v2 :: v3 :: v4 :: rest =>
    (v1 * 4 + v2 / 16) :: (v2 % 16 * 16 + v3 / 4) :: (v3 % 4 * 64 + v4) :: b64Assemble rest

/-- Translate every character through the alphabet, failing on any character
outside it (this is where a leftover `=` or a `!` makes `atob` throw). -/
def b64Sextets : List Char → Option (List Nat)
  | [] => some []
  | c :: rest => do
    let v ← b64Index c
    let vs ← b64Sextets rest
    some (v :: vs)

def b64Decode (s : List Char) : Option (List Nat) :=
  let t := s.filter (fun c => !b64Ws c)
  let t2 := if t.length % 4 = 0 then b64DropPad t else t
  if t2.length % 4 = 1 then none
  else (b64Sextets t2).map b64Assemble

theorem b64Alphabet_length : b64Alphabet.length = 64 := rfl

theorem b64Index_char (n : Nat) (h : n < 64) : b64Index (b64Char n) = some n := by
  interval_cases n <;> rfl

theorem b64Char_not_ws (n : Nat) : b64Ws (b64Char n) = false := by
  by_cases h : n < 64
  · interval_cases n <;> rfl
  · rw [b64Char, List.getD_eq_default]
    · rfl
    · rw [b64Alphabet_length]; omega

theorem b64Char_ne_pad (n : Nat) : b64Char n ≠ '=' := by
  by_cases h : n < 64
  · interval_cases n <;> decide
  · rw [b64Char, List.getD_eq_default]
    · decide
    · rw [b64Alphabet_length]; omega

theorem b64Encode_not_ws (bs : List Nat) : ∀ c ∈ b64Encode bs, b64Ws c = false := by
  induction bs using b64Encode.induct with
  | case1 => intro c hc; simp [b64Encode] at hc
  | case2 b1 =>
    intro c hc
    rw [b64Encode] at hc
    simp only [List.mem_cons, List.not_mem_nil, or_false] at hc
    rcases hc with rfl | rfl | rfl | rfl
    · exact b64Char_not_ws _
    · exact b64Char_not_ws _
    · rfl
    · rfl
  | case3 b1 b2 =>
    intro c hc
    rw [b64Encode] at hc
    simp only [List.mem_cons, List.not_mem_nil, or_false] at hc
    rcases hc with rfl | rfl | rfl | rfl
    · exact b64Char_not_ws _
    · exact b64Char_not_ws _
    · exact b64Char_not_ws _
    · rfl
  | case4 b1 b2 b3 rest ih =>
    intro c hc
    rw [b64Encode] at hc
    simp only [List.mem_cons] at hc
    rcases hc with rfl | rfl | rfl | rfl | h
    · exact b64Char_not_ws _
    · exact b64Char_not_ws _
    · exact b64Char_not_ws _
    · exact b64Char_not_ws _
    · exact ih c h

theorem b64Encode_length_mod (bs : List Nat) : (b64Encode bs).length % 4 = 0 := by
  induction bs using b64Encode.induct with
  | case1 => rw [b64Encode]; simp
  | case2 b1 => rw [b64Encode]; simp
  | case3 b1 b2 => rw [b64Encode]; simp
  | case4 b1 b2 b3 rest ih => rw [b64Encode]; simp only [List.length_cons]; omega

/-- The unpadded sextet string of a byte string. -/
def b64Core : List Nat → List Char
  | [] => []
  | [b1] => [b64Char (b1 / 4), b64Char (b1 % 4 * 16)]
  | [b1, b2] => [b64Char (b1 / 4), b64Char (b1 % 4 * 16 + b2 / 16), b64Char (b2 % 16 * 4)]
  | b1 :: b2 :: b3 :: rest =>
    b64Char (b1 / 4) :: b64Char (b1 % 4 * 16 + b2 / 16) :: b64Char (b2 % 16 * 4 + b3 / 64)
      :: b64Char (b3 % 64) :: b64Core rest

theorem b64DropPad_append (xs ys : List Char) (y1 y2 : Char) (t : List Char)
    (hy : ys = t ++ [y2, y1]) : b64DropPad (xs ++ ys) = xs ++ b64DropPad ys := by
  subst hy
  have h1 : (xs ++ (t ++ [y2, y1])).reverse = y1 :: y2 :: (t.reverse ++ xs.reverse) := by
    simp
  have h2 : (t ++ [y2, y1]).reverse = y1 :: y2 :: t.reverse := by simp
  rw [b64DropPad, b64DropPad, h1, h2]
  by_cases hy1 : y1 = '=' <;> by_cases hy2 : y2 = '=' <;>
    simp [hy1, hy2, List.reverse_append]

theorem b64DropPad_pad2 (xs : List Char) : b64DropPad (xs ++ ['=', '=']) = xs := by
  rw [b64DropPad]
  have h1 : (xs ++ ['=', '=']).reverse = '=' :: '=' :: xs.reverse := by simp
  rw [h1]
  simp

theorem b64DropPad_pad1 (xs : List Char) (c : Char) (hc : c ≠ '=') :
    b64DropPad (xs ++ [c, '=']) = xs ++ [c] := by
  rw [b64DropPad]
  have h1 : (xs ++ [c, '=']).reverse = '=' :: c :: xs.reverse := by simp
  rw [h1]
  simp only [List.head?_cons, Option.some.injEq, if_pos rfl, List.tail_cons]
  rw [if_neg (by simp [hc])]
  simp

theorem b64DropPad_nopad (xs : List Char) (c : Char) (hc : c ≠ '=') :
    b64DropPad (xs ++ [c]) = xs ++ [c] := by
  rw [b64DropPad]
  have h1 : (xs ++ [c]).reverse = c :: xs.reverse := by simp
  rw [h1]
  rw [if_neg (by simp [hc]), if_neg (by simp [hc])]
  simp

theorem b64DropPad_encode (bs : List Nat) : b64DropPad (b64Encode bs) = b64Core bs := by
  induction bs using b64Encode.induct with
  | case1 => rw [b64Encode, b64Core]; rfl
  | case2 b1 =>
    rw [b64Encode, b64Core]
    have h1 : [b64Char (b1 / 4), b64Char (b1 % 4 * 16), '=', '=']
        = [b64Char (b1 / 4), b64Char (b1 % 4 * 16)] ++ ['=', '='] := by simp
    rw [h1, b64DropPad_pad2]
  | case3 b1 b2 =>
    rw [b64Encode, b64Core]
    have h1 : [b64Char (b1 / 4), b64Char (b1 % 4 * 16 + b2 / 16), b64Char (b2 % 16 * 4), '=']
        = [b64Char (b1 / 4), b64Char (b1 % 4 * 16 + b2 / 16)] ++ [b64Char (b2 % 16 * 4), '='] := by
      simp
    rw [h1, b64DropPad_pad1 _ _ (b64Char_ne_pad _)]
    simp
  | case4 b1 b2 b3 rest ih =>
    rw [b64Encode, b64Core]
    cases hr : b64Encode rest with
    | nil =>
      rw [hr] at ih
      have hcore : b64Core rest = [] := by
        rw [← ih, b64DropPad]; rfl
      rw [hcore]
      have h1 : b64Char (b1 / 4) :: b64Char (b1 % 4 * 16 + b2 / 16)
          :: b64Char (b2 % 16 * 4 + b3 / 64) :: b64Char (b3 % 64) :: ([] : List Char)
          = [b64Char (b1 / 4), b64Char (b1 % 4 * 16 + b2 / 16), b64Char (b2 % 16 * 4 + b3 / 64)]
            ++ [b64Char (b3 % 64)] := by simp
      rw [h1, b64DropPad_nopad _ _ (b64Char_ne_pad _)]
    | cons x xs =>
      have hlen : (b64Encode rest).length % 4 = 0 := b64Encode_length_mod rest
      rw [hr] at hlen
      have hlen2 : 2 ≤ (x :: xs).length := by
        simp only [List.length_cons] at hlen ⊢
        omega
      obtain ⟨t, y2, y1, hsplit⟩ : ∃ t y2 y1, x :: xs = t ++ [y2, y1] := by
        match hrev : (x :: xs).reverse with
        | [] => simp at hrev
        | [z] =>
          have hlone : (x :: xs).length = 1 := by
            rw [← List.length_reverse, hrev]
            rfl
          omega
        | z1 :: z2 :: zt =>
          refine ⟨zt.reverse, z2, z1, ?_⟩
          have hcongr := congrArg List.reverse hrev
          simpa using hcongr
      rw [show b64Char (b1 / 4) :: b64Char (b1 % 4 * 16 + b2 / 16)
          :: b64Char (b2 % 16 * 4 + b3 / 64) :: b64Char (b3 % 64) :: (x :: xs)
          = [b64Char (b1 / 4), b64Char (b1 % 4 * 16 + b2 / 16), b64Char (b2 % 16 * 4 + b3 / 64),
             b64Char (b3 % 64)] ++ (x :: xs) from by simp,
        b64DropPad_append _ _ y1 y2 t hsplit, ← hr, ih]
      simp

theorem b64Sextets_assemble_core (bs : List Nat) (hb : ∀ b ∈ bs, b < 256) :
    (b64Sextets (b64Core bs)).map b64Assemble = some bs := by
  induction bs using b64Core.induct with
  | case1 =>
    rw [b64Core, b64Sextets]
    simp only [Option.map_some', b64Assemble]
  | case2 b1 =>
    have h1 : b1 < 256 := hb b1 (by simp)
    rw [b64Core]
    simp only [b64Sextets, b64Index_char _ (show b1 / 4 < 64 by omega),
      b64Index_char _ (show b1 % 4 * 16 < 64 by omega), Option.bind_eq_bind,
      Option.some_bind, Option.map_some']
    rw [b64Assemble]
    simp only [Option.some.injEq, List.cons.injEq, and_true]
    omega
  | case3 b1 b2 =>
    have h1 : b1 < 256 := hb b1 (by simp)
    have h2 : b2 < 256 := hb b2 (by simp)
    rw [b64Core]
    simp only [b64Sextets, b64Index_char _ (show b1 / 4 < 64 by omega),
      b64Index_char _ (show b1 % 4 * 16 + b2 / 16 < 64 by omega),
      b64Index_char _ (show b2 % 16 * 4 < 64 by omega), Option.bind_eq_bind,
      Option.some_bind, Option.map_some']
    rw [b64Assemble]
    simp only [Option.some.injEq, List.cons.injEq, and_true]
    constructor <;> omega
  | case4 b1 b2 b3 rest ih =>
    have h1 : b1 < 256 := hb b1 (by simp)
    have h2 : b2 < 256 := hb b2 (by simp)
    have h3 : b3 < 256 := hb b3 (by simp)
    have hrest : ∀ b ∈ rest, b < 256 := fun b hmem => hb b (by simp [hmem])
    have ihr := ih hrest
    obtain ⟨vs, hvs, hasm⟩ : ∃ vs, b64Sextets (b64Core rest) = some vs ∧ b64Assemble vs = rest := by
      cases hsx : b64Sextets (b64Core rest) with
      | none => rw [hsx] at ihr; simp at ihr
      | some vs =>
        rw [hsx] at ihr
        simp only [Option.map_some', Option.some.injEq] at ihr
        exact ⟨vs, rfl, ihr⟩
    rw [b64Core]
    simp only [b64Sextets, b64Index_char _ (show b1 / 4 < 64 by omega),
      b64Index_char _ (show b1 % 4 * 16 + b2 / 16 < 64 by omega),
      b64Index_char _ (show b2 % 16 * 4 + b3 / 64 < 64 by omega),
      b64Index_char _ (show b3 % 64 < 64 by omega), hvs, Option.bind_eq_bind,
      Option.some_bind, Option.map_some']
    rw [b64Assemble, hasm]
    simp only [Option.some.injEq, List.cons.injEq, and_true]
    refine ⟨by omega, by omega, by omega⟩

theorem b64Core_length_mod (bs : List Nat) : (b64Core bs).length % 4 ≠ 1 := by
  induction bs using b64Core.induct with
  | case1 => rw [b64Core]; simp
  | case2 b1 => rw [b64Core]; simp
  | case3 b1 b2 => rw [b64Core]; simp
  | case4 b1 b2 b3 rest ih =>
    rw [b64Core]
    simp only [List.length_cons]
    omega

/-- The base64 codec round-trip on byte strings. -/
theorem b64Decode_encode (bs : List Nat) (hb : ∀ b ∈ bs, b < 256) :
    b64Decode (b64Encode bs) = some bs := by
  rw [b64Decode]
  have hfilter : (b64Encode bs).filter (fun c => !b64Ws c) = b64Encode bs := by
    rw [List.filter_eq_self]
    intro c hc
    simp [b64Encode_not_ws _ c hc]
  rw [hfilter]
  simp only [b64Encode_length_mod bs, if_pos rfl, b64DropPad_encode bs, if_true]
  rw [if_neg (b64Core_length_mod bs), b64Sextets_assemble_core bs hb]

/-! ## JSON values

`JSON.stringify` / `JSON.parse` are modelled for the JSON fragment this
application serializes: numbers are integers (the only numbers in a payload are
chart values; float syntax is outside the embedding), strings are Unicode
scalar sequences.  Objects keep their fields in insertion order, and lookups
take the last binding with a given key, as JavaScript objects do. -/

inductive Json where
  | null
  | bool (b : Bool)
  | num (n : Int)
  | str (s : List Char)
  | arr (elems : List Json)
  | obj (fields : List (List Char × Json))

def hexLower (n : Nat) : Char :=
  if n < 10 then Char.ofNat (48 + n) else Char.ofNat (87 + n)

/-- One character as `JSON.stringify` escapes it inside a string literal. -/
def escChar (c : Char) : List Char :=
  if c = '"' then ['\\', '"']
  else if c = '\\' then ['\\', '\\']
  else if c = '\x08' then ['\\', 'b']
  else if c = '\x09' then ['\\', 't']
  else if c = '\x0a' then ['\\', 'n']
  else if c = '\x0c' then ['\\', 'f']
  else if c = '\x0d' then ['\\', 'r']
  else if c.toNat < 32 then ['\\', 'u', '0', '0', hexLower (c.toNat / 16), hexLower (c.toNat % 16)]
  else [c]

def escString (s : List Char) : List Char := '"' :: (s.flatMap escChar ++ ['"'])

def digitChar (d : Nat) : Char :=
  ['0', '1', '2', '3', '4', '5', '6', '7', '8', '9'].getD d '0'

/-- Decimal digits of `n`, most significant first, onto `acc`; the first
argument is fuel (`n` itself is always enough). -/
def natDecAux : Nat → Nat → List Char → List Char
  | 0, n, acc => digitChar (n % 10) :: acc
  | fuel + 1, n, acc =>
    if n < 10 then digitChar n :: acc else natDecAux fuel (n / 10) (digitChar (n % 10) :: acc)

def natDec (n : Nat) : List Char := natDecAux n n []

def intDec (i : Int) : List Char := if i < 0 then '-' :: natDec i.natAbs else natDec i.natAbs

mutual
def stringifyVal : Json → List Char
  | .num i => intDec i
  | .str s => escString s
  | .bool false => ['f', 'a', 'l', 's', 'e']
  | .bool true => ['t', 'r', 'u', 'e']
  | .null => ['n', 'u', 'l', 'l']
  | .arr l => '[' :: (stringifyElems l ++ [']'])
  | .obj l => '\x7b' :: (stringifyFields l ++ ['\x7d'])
def stringifyElems : List Json → List Char
  | [] => []
  | j :: rest => stringifyVal j ++ stringifyElemsTail rest
def stringifyElemsTail : List Json → List Char
  | [] => []
  | j :: rest => ',' :: (stringifyVal j ++ stringifyElemsTail rest)
def stringifyFields : List (List Char × Json) → List Char
  | [] => []
  | (k, v) :: rest => escString k ++ ':' :: (stringifyVal v ++ stringifyFieldsTail rest)
def stringifyFieldsTail : List (List Char × Json) → List Char
  | [] => []
  | (k, v) :: rest => ',' :: (escString k ++ ':' :: (stringifyVal v ++ stringifyFieldsTail rest))
end

/-! ### The parser (`JSON.parse` on the same fragment) -/

def jsonWs (c : Char) : Bool := decide (c = ' ' ∨ c = '\t' ∨ c = '\n' ∨ c = '\r')

def skipWs (s : List Char) : List Char := s.dropWhile jsonWs

def hexVal (c : Char) : Option Nat :=
  if '0' ≤ c ∧ c ≤ '9' then some (c.toNat - 48)
  else if 'a' ≤ c ∧ c ≤ 'f' then some (c.toNat - 87)
  else if 'A' ≤ c ∧ c ≤ 'F' then some (c.toNat - 55)
  else none

def escMap (e : Char) : Option Char :=
  if e = '"' then some '"'
  else if e = '\\' then some '\\'
  else if e = '/' then some '/'
  else if e = 'b' then some '\x08'
  else if e = 'f' then some '\x0c'
  else if e = 'n' then some '\x0a'
  else if e = 'r' then some '\x0d'
  else if e = 't' then some '\x09'
  else none

/-- Parse a string body after the opening quote, undoing escapes.  Unescaped
control characters are rejected, as `JSON.parse` does; `\uXXXX` escapes in the
surrogate range are rejected (Unicode scalar model). -/
def parseStringBody : List Char → Option (List Char × List Char)
  | [] => none
  | '"' :: rest => some ([], rest)
  | '\\' :: 'u' :: h1 :: h2 :: h3 :: h4 :: rest => do
    let v1 ← hexVal h1
    let v2 ← hexVal h2
    let v3 ← hexVal h3
    let v4 ← hexVal h4
    if 0xD800 ≤ ((v1 * 16 + v2) * 16 + v3) * 16 + v4 ∧
        ((v1 * 16 + v2) * 16 + v3) * 16 + v4 < 0xE000 then none
    else
      let (cs, r) ← parseStringBody rest
      some (Char.ofNat (((v1 * 16 + v2) * 16 + v3) * 16 + v4) :: cs, r)
  | '\\' :: e :: rest => do
    let c ← escMap e
    let (cs, r) ← parseStringBody rest
    some (c :: cs, r)
  | c :: rest =>
    if c.toNat < 32 then none
    else do
      let (cs, r) ← parseStringBody rest
      some (c :: cs, r)

def isDigitCh (c : Char) : Bool := decide ('0' ≤ c ∧ c ≤ '9')

def takeDigits : List Char → List Char × List Char
  | [] => ([], [])
  | c :: rest =>
    if isDigitCh c then
      let (ds, r) := takeDigits rest
      (c :: ds, r)
    else ([], c :: rest)

def digitsVal (ds : List Char) : Nat := ds.foldl (fun acc c => acc * 10 + (c.toNat - 48)) 0

/-- Parse an unsigned JSON integer: a digit run with no leading zero. -/
def parseNatNum (s : List Char) : Option (Nat × List Char) :=
  match takeDigits s with
  | ([], _) => none
  | ([c], r) => some (digitsVal [c], r)
  | (c :: d :: ds, r) => if c = '0' then none else some (digitsVal (c :: d :: ds), r)

mutual
def parseVal : Nat → List Char → Option (Json × List Char)
  | 0, _ => none
  | fuel + 1, s =>
    match skipWs s with
    | '"' :: r =>
      match parseStringBody r with
      | some (cs, r2) => some (.str cs, r2)
      | none => none
    | '\x7b' :: r =>
      match skipWs r with
      | [] => none
      | c :: r2 =>
        if c = '\x7d' then some (.obj [], r2)
        else
          match parseFields fuel (c :: r2) with
          | some (fs, r3) => some (.obj fs, r3)
          | none => none
    | '[' :: r =>
      match skipWs r with
      | [] => none
      | c :: r2 =>
        if c = ']' then some (.arr [], r2)
        else
          match parseElems fuel (c :: r2) with
          | some (l, r3) => some (.arr l, r3)
          | none => none
    | 't' :: 'r' :: 'u' :: 'e' :: r => some (.bool true, r)
    | 'f' :: 'a' :: 'l' :: 's' :: 'e' :: r => some (.bool false, r)
    | 'n' :: 'u' :: 'l' :: 'l' :: r => some (.null, r)
    | '-' :: r =>
      match parseNatNum r with
      | some (m, r2) => some (.num (-(m : Int)), r2)
      | none => none
    | c :: r =>
      if isDigitCh c then
        match parseNatNum (c :: r) with
        | some (m, r2) => some (.num (m : Int), r2)
        | none => none
      else none
    | [] => none
def parseElems : Nat → List Char → Option (List Json × List Char)
  | 0, _ => none
  | fuel + 1, s =>
    match parseVal fuel s with
    | none => none
    | some (v, r) =>
      match skipWs r with
      | ',' :: r2 =>
        match parseElems fuel r2 with
        | some (l, r3) => some (v :: l, r3)
        | none => none
      | ']' :: r2 => some ([v], r2)
      | _ => none
def parseFields : Nat → List Char → Option (List (List Char × Json) × List Char)
  | 0, _ => none
  | fuel + 1, s =>
    match skipWs s with
    | '"' :: r =>
      match parseStringBody r with
      | none => none
      | some (k, r1) =>
        match skipWs r1 with
        | ':' :: r2 =>
          match parseVal fuel r2 with
          | none => none
          | some (v, r3) =>
            match skipWs r3 with
            | ',' :: r4 =>
              match parseFields fuel r4 with
              | some (fs, r5) => some ((k, v) :: fs, r5)
              | none => none
            | '\x7d' :: r4 => some ([(k, v)], r4)
            | _ => none
        | _ => none
    | _ => none
end

def parseJson (s : List Char) : Option Json :=
  match parseVal (s.length + 1) s with
  | some (j, r) => if skipWs r = [] then some j else none
  | none => none

/-! ### Support lemmas for the codec round-trip -/

theorem skipWs_cons (c : Char) (t : List Char) (h : jsonWs c = false) :
    skipWs (c :: t) = c :: t := by
  simp [skipWs, List.dropWhile_cons, h]

theorem hexVal_hexLower (v : Nat) (h : v < 16) : hexVal (hexLower v) = some v := by
  interval_cases v <;> rfl

theorem parseStringBody_escChar (c : Char) (t : List Char) :
    parseStringBody (escChar c ++ t)
      = (parseStringBody t).map (fun p => (c :: p.1, p.2)) := by
  by_cases h1 : c = '"'
  · subst h1
    cases hpt : parseStringBody t <;> simp [escChar, parseStringBody, escMap, hpt]
  · by_cases h2 : c = '\\'
    · subst h2
      cases hpt : parseStringBody t <;> simp [escChar, parseStringBody, escMap, hpt]
    · by_cases h3 : c = '\x08'
      · subst h3
        cases hpt : parseStringBody t <;> simp [escChar, parseStringBody, escMap, hpt]
      · by_cases h4 : c = '\x09'
        · subst h4
          cases hpt : parseStringBody t <;> simp [escChar, parseStringBody, escMap, hpt]
        · by_cases h5 : c = '\x0a'
          · subst h5
            cases hpt : parseStringBody t <;> simp [escChar, parseStringBody, escMap, hpt]
          · by_cases h6 : c = '\x0c'
            · subst h6
              cases hpt : parseStringBody t <;> simp [escChar, parseStringBody, escMap, hpt]
            · by_cases h7 : c = '\x0d'
              · subst h7
                cases hpt : parseStringBody t <;> simp [escChar, parseStringBody, escMap, hpt]
              · by_cases h8 : c.toNat < 32
                · have hesc : escChar c = ['\\', 'u', '0', '0', hexLower (c.toNat / 16),
                      hexLower (c.toNat % 16)] := by
                    rw [escChar]
                    simp [h1, h2, h3, h4, h5, h6, h7, h8]
                  rw [hesc]
                  have hv1 : hexVal '0' = some 0 := rfl
                  have hhi : hexVal (hexLower (c.toNat / 16)) = some (c.toNat / 16) :=
                    hexVal_hexLower _ (by omega)
                  have hlo : hexVal (hexLower (c.toNat % 16)) = some (c.toNat % 16) :=
                    hexVal_hexLower _ (by omega)
                  have harith : ((0 * 16 + 0) * 16 + c.toNat / 16) * 16 + c.toNat % 16
                      = c.toNat := by omega
                  have hsur : ¬ (0xD800 ≤ ((0 * 16 + 0) * 16 + c.toNat / 16) * 16 + c.toNat % 16 ∧
                      ((0 * 16 + 0) * 16 + c.toNat / 16) * 16 + c.toNat % 16 < 0xE000) := by omega
                  have hx : c.toNat / 16 * 16 + c.toNat % 16 = c.toNat := by omega
                  cases hpt : parseStringBody t <;>
                    simp [parseStringBody, hv1, hhi, hlo, hsur, harith, hpt, hx,
                      Char.ofNat_toNat, (show ¬ (55296 ≤ c.toNat) from by omega)]
                · have hesc : escChar c = [c] := by
                    rw [escChar]
                    simp [h1, h2, h3, h4, h5, h6, h7, h8]
                  rw [hesc]
                  rw [parseStringBody.eq_def]
                  cases hpt : parseStringBody t <;>
                    simp [h1, h2, h8, hpt]

theorem parseStringBody_flatMap (s : List Char) (rest : List Char) :
    parseStringBody (s.flatMap escChar ++ '"' :: rest) = some (s, rest) := by
  induction s with
  | nil => rfl
  | cons c cs ih =>
    rw [List.flatMap_cons, List.append_assoc, parseStringBody_escChar, ih]
    rfl

/-! ### Decimal integers -/

theorem natDec_lt10 (n : Nat) (h : n < 10) : natDec n = [digitChar n] := by
  match n, h with
  | 0, _ => rfl
  | (m + 1), h => rw [natDec, natDecAux, if_pos h]

theorem natDecAux_natDec : ∀ n fuel acc, n ≤ fuel →
    natDecAux fuel n acc = natDec n ++ acc := by
  intro n
  induction n using Nat.strong_induction_on with
  | _ n ih =>
    intro fuel acc hle
    match fuel with
    | 0 =>
      have hn : n = 0 := by omega
      subst hn
      rw [natDecAux, natDec]
      rfl
    | f + 1 =>
      by_cases h10 : n < 10
      · rw [natDecAux, if_pos h10, natDec_lt10 n h10]
        rfl
      · rw [natDecAux, if_neg h10]
        rw [ih (n / 10) (by omega) f _ (by omega)]
        have hrhs : natDec n = natDec (n / 10) ++ [digitChar (n % 10)] := by
          match n, h10 with
          | (m + 1), h10 =>
            rw [natDec, natDecAux, if_neg h10]
            rw [ih ((m + 1) / 10) (by omega) m _ (by omega)]
        rw [hrhs]
        simp

theorem natDec_ge10 (n : Nat) (h : 10 ≤ n) :
    natDec n = natDec (n / 10) ++ [digitChar (n % 10)] := by
  match n, h with
  | (m + 1), h =>
    rw [natDec, natDecAux, if_neg (by omega)]
    rw [natDecAux_natDec ((m + 1) / 10) m _ (by omega)]

theorem digitChar_isDigit (d : Nat) (h : d < 10) : isDigitCh (digitChar d) = true := by
  interval_cases d <;> rfl

theorem digitChar_toNat (d : Nat) (h : d < 10) : (digitChar d).toNat = 48 + d := by
  interval_cases d <;> rfl

theorem natDec_digits (n : Nat) : ∀ c ∈ natDec n, isDigitCh c = true := by
  induction n using Nat.strong_induction_on with
  | _ n ih =>
    by_cases h10 : n < 10
    · rw [natDec_lt10 n h10]
      intro c hc
      simp only [List.mem_singleton] at hc
      subst hc
      exact digitChar_isDigit n h10
    · rw [natDec_ge10 n (by omega)]
      intro c hc
      rcases List.mem_append.mp hc with h | h
      · exact ih (n / 10) (by omega) c h
      · simp only [List.mem_singleton] at h
        subst h
        exact digitChar_isDigit _ (by omega)

theorem natDec_ne_nil (n : Nat) : natDec n ≠ [] := by
  by_cases h10 : n < 10
  · rw [natDec_lt10 n h10]; simp
  · rw [natDec_ge10 n (by omega)]; simp

theorem digitsVal_natDec (n : Nat) : digitsVal (natDec n) = n := by
  induction n using Nat.strong_induction_on with
  | _ n ih =>
    by_cases h10 : n < 10
    · rw [natDec_lt10 n h10, digitsVal]
      simp [digitChar_toNat n h10]
    · rw [natDec_ge10 n (by omega), digitsVal, List.foldl_append]
      have hfold : (natDec (n / 10)).foldl (fun acc c => acc * 10 + (c.toNat - 48)) 0 = n / 10 :=
        ih (n / 10) (by omega)
      rw [hfold]
      simp [digitChar_toNat (n % 10) (by omega)]
      omega

theorem natDec_head_ne_zero (n : Nat) (hn : n ≠ 0) : (natDec n).head? ≠ some '0' := by
  induction n using Nat.strong_induction_on with
  | _ n ih =>
    by_cases h10 : n < 10
    · rw [natDec_lt10 n h10]
      interval_cases n <;> simp_all <;> decide
    · rw [natDec_ge10 n (by omega)]
      have hne := natDec_ne_nil (n / 10)
      cases hh : natDec (n / 10) with
      | nil => exact absurd hh hne
      | cons x xs =>
        have := ih (n / 10) (by omega) (by omega)
        rw [hh] at this
        simpa using this

/-- A remainder that cannot extend a parsed number: empty or not digit-headed.
Every delimiter produced by `stringifyVal` (`,`, `]`, `}`, end of input)
satisfies it. -/
def numStop : List Char → Prop
  | [] => True
  | c :: _ => isDigitCh c = false

theorem takeDigits_stop (s : List Char) (h : numStop s) : takeDigits s = ([], s) := by
  match s with
  | [] => rfl
  | c :: t =>
    have hc : isDigitCh c = false := h
    rw [takeDigits, if_neg (by simp [hc])]

theorem takeDigits_run (ds rest : List Char) (hds : ∀ c ∈ ds, isDigitCh c = true)
    (hrest : numStop rest) : takeDigits (ds ++ rest) = (ds, rest) := by
  induction ds with
  | nil => simpa using takeDigits_stop rest hrest
  | cons c t ih =>
    have hc : isDigitCh c = true := hds c (by simp)
    have ht := ih (fun x hx => hds x (by simp [hx]))
    rw [List.cons_append, takeDigits, if_pos (by simp [hc]), ht]

theorem parseNatNum_natDec (n : Nat) (rest : List Char) (hrest : numStop rest) :
    parseNatNum (natDec n ++ rest) = some (n, rest) := by
  have htake : takeDigits (natDec n ++ rest) = (natDec n, rest) :=
    takeDigits_run _ _ (natDec_digits n) hrest
  by_cases h10 : n < 10
  · rw [parseNatNum, htake, natDec_lt10 n h10]
    have hdv : digitsVal [digitChar n] = n := by
      rw [digitsVal]
      simp [digitChar_toNat n h10]
    simp [hdv]
  · have hform : ∃ c d ds, natDec n = c :: d :: ds := by
      rcases hh : natDec n with _ | ⟨c, _ | ⟨d, ds⟩⟩
      · exact absurd hh (natDec_ne_nil n)
      · exfalso
        have hv := digitsVal_natDec n
        rw [hh, digitsVal] at hv
        have hd : isDigitCh c = true := by
          have := natDec_digits n c
          rw [hh] at this
          exact this (by simp)
        have hc9 : c.toNat ≤ 57 ∧ 48 ≤ c.toNat := by
          revert hd
          rw [isDigitCh]
          intro hd
          have := of_decide_eq_true hd
          exact ⟨this.2, this.1⟩
        simp only [List.foldl_cons, List.foldl_nil] at hv
        omega
      · exact ⟨c, d, ds, rfl⟩
    obtain ⟨c, d, ds, hh⟩ := hform
    have hc0 : ¬ c = '0' := by
      have := natDec_head_ne_zero n (by omega)
      rw [hh] at this
      simpa using this
    have hv : digitsVal (c :: d :: ds) = n := by
      rw [← hh]
      exact digitsVal_natDec n
    rw [parseNatNum, htake, hh]
    simp [hc0, hv]

theorem intDec_parse_facts (i : Int) :
    ∃ c t, intDec i = c :: t ∧ (c = '-' ∨ isDigitCh c = true) := by
  rw [intDec]
  by_cases hi : i < 0
  · exact ⟨'-', natDec i.natAbs, by rw [if_pos hi], Or.inl rfl⟩
  · rw [if_neg hi]
    rcases hh : natDec i.natAbs with _ | ⟨c, t⟩
    · exact absurd hh (natDec_ne_nil _)
    · refine ⟨c, t, rfl, Or.inr ?_⟩
      have := natDec_digits i.natAbs c
      rw [hh] at this
      exact this (by simp)

theorem digit_char_facts (c : Char) (h : isDigitCh c = true) :
    jsonWs c = false ∧ c ≠ ']' ∧ c ≠ '\x7d' ∧ c ≠ '"' ∧ c ≠ '\x7b' ∧ c ≠ '[' ∧
      c ≠ 't' ∧ c ≠ 'f' ∧ c ≠ 'n' ∧ c ≠ '-' ∧ c ≠ ',' ∧ c ≠ ':' := by
  refine ⟨?_, ?_, ?_, ?_, ?_, ?_, ?_, ?_, ?_, ?_, ?_, ?_⟩
  · by_contra hw
    have hw2 : jsonWs c = true := by
      cases hj : jsonWs c
      · exact absurd hj hw
      · rfl
    have := of_decide_eq_true hw2
    rcases this with rfl | rfl | rfl | rfl <;> exact absurd h (by decide)
  all_goals (intro hEq; rw [hEq] at h; exact absurd h (by decide))

theorem minus_char_facts :
    jsonWs '-' = false ∧ ('-' : Char) ≠ ']' ∧ ('-' : Char) ≠ '\x7d' := by
  refine ⟨rfl, by decide, by decide⟩

/-- Every rendered value starts with a character that is not whitespace and
closes neither an array nor an object. -/
theorem stringifyVal_head (j : Json) :
    ∃ c t, stringifyVal j = c :: t ∧ jsonWs c = false ∧ c ≠ ']' ∧ c ≠ '\x7d' := by
  cases j with
  | null => exact ⟨'n', _, rfl, rfl, by decide, by decide⟩
  | bool b =>
    cases b with
    | true => exact ⟨'t', _, rfl, rfl, by decide, by decide⟩
    | false => exact ⟨'f', _, rfl, rfl, by decide, by decide⟩
  | str s => exact ⟨'"', _, rfl, rfl, by decide, by decide⟩
  | arr l => exact ⟨'[', _, rfl, rfl, by decide, by decide⟩
  | obj l => exact ⟨'\x7b', _, rfl, rfl, by decide, by decide⟩
  | num i =>
    obtain ⟨c, t, hct, hc⟩ := intDec_parse_facts i
    refine ⟨c, t, by rw [stringifyVal, hct], ?_, ?_, ?_⟩
    · rcases hc with rfl | hd
      · rfl
      · exact (digit_char_facts c hd).1
    · rcases hc with rfl | hd
      · decide
      · exact (digit_char_facts c hd).2.1
    · rcases hc with rfl | hd
      · decide
      · exact (digit_char_facts c hd).2.2.1

theorem skipWs_stringifyVal (j : Json) (x : List Char) :
    skipWs (stringifyVal j ++ x) = stringifyVal j ++ x := by
  obtain ⟨c, t, hct, hws, _, _⟩ := stringifyVal_head j
  rw [hct, List.cons_append, skipWs_cons _ _ hws]

theorem stringifyVal_length_pos (j : Json) : 1 ≤ (stringifyVal j).length := by
  obtain ⟨c, t, hct, _, _, _⟩ := stringifyVal_head j
  rw [hct]
  simp

theorem skipWs_stringifyElems (e : Json) (es : List Json) (x : List Char) :
    skipWs (stringifyElems (e :: es) ++ x) = stringifyElems (e :: es) ++ x := by
  rw [stringifyElems, List.append_assoc]
  exact skipWs_stringifyVal e _

theorem parseVal_digit_step (f : Nat) (c : Char) (r : List Char) (hd : isDigitCh c = true) :
    parseVal (f + 1) (c :: r)
      = (match parseNatNum (c :: r) with
         | some (m, r2) => some (.num (m : Int), r2)
         | none => none) := by
  obtain ⟨hws, _, _, hq, hlb2, hlb, ht, hf, hn, hm, _, _⟩ := digit_char_facts c hd
  simp only [parseVal]
  rw [skipWs_cons c r hws]
  simp [hq, hlb, hlb2, ht, hf, hn, hm, hd]

theorem parseVal_num (i : Int) (f : Nat) (rest : List Char) (hrest : numStop rest) :
    parseVal (f + 1) (intDec i ++ rest) = some (.num i, rest) := by
  by_cases hi : i < 0
  · have harg : intDec i ++ rest = '-' :: (natDec i.natAbs ++ rest) := by
      rw [intDec, if_pos hi, List.cons_append]
    rw [harg]
    have hstep : parseVal (f + 1) ('-' :: (natDec i.natAbs ++ rest))
        = (match parseNatNum (natDec i.natAbs ++ rest) with
           | some (m, r2) => some (.num (-(m : Int)), r2)
           | none => none) := rfl
    rw [hstep, parseNatNum_natDec _ _ hrest]
    have hneg : (-(i.natAbs : Int)) = i := by omega
    show some (Json.num (-(i.natAbs : Int)), rest) = some (Json.num i, rest)
    rw [hneg]
  · have harg : intDec i = natDec i.natAbs := by rw [intDec, if_neg hi]
    obtain ⟨c, t, hct⟩ : ∃ c t, natDec i.natAbs = c :: t := by
      rcases hh : natDec i.natAbs with _ | ⟨c, t⟩
      · exact absurd hh (natDec_ne_nil _)
      · exact ⟨c, t, rfl⟩
    have hd : isDigitCh c = true := by
      have := natDec_digits i.natAbs c
      rw [hct] at this
      exact this (by simp)
    rw [harg, hct, List.cons_append, parseVal_digit_step f c _ hd,
      show c :: (t ++ rest) = (c :: t) ++ rest from rfl, ← hct,
      parseNatNum_natDec _ _ hrest]
    have habs : ((i.natAbs : Int)) = i := by omega
    simp [habs]

theorem parseVal_arr_step (f : Nat) (e : Json) (es : List Json) (rest : List Char) :
    parseVal (f + 1) ('[' :: (stringifyElems (e :: es) ++ (']' :: rest)))
      = (match parseElems f (stringifyElems (e :: es) ++ (']' :: rest)) with
         | some (l, r3) => some (Json.arr l, r3)
         | none => none) := by
  obtain ⟨c, t, hct, hws, hrb, _⟩ := stringifyVal_head e
  have hcons : stringifyElems (e :: es) ++ (']' :: rest)
      = c :: (t ++ stringifyElemsTail es ++ (']' :: rest)) := by
    rw [stringifyElems, hct]
    simp
  have hstep : parseVal (f + 1) ('[' :: (stringifyElems (e :: es) ++ (']' :: rest)))
      = (match skipWs (stringifyElems (e :: es) ++ (']' :: rest)) with
         | [] => none
         | c :: r2 =>
           if c = ']' then some (.arr [], r2)
           else
             match parseElems f (c :: r2) with
             | some (l, r3) => some (.arr l, r3)
             | none => none) := rfl
  rw [hstep, skipWs_stringifyElems e es (']' :: rest)]
  conv_lhs => rw [hcons]
  simp only [if_neg hrb]
  rw [← hcons]

theorem stringifyFields_cons (k : List Char) (v : Json) (fs : List (List Char × Json)) :
    stringifyFields ((k, v) :: fs)
      = '"' :: (k.flatMap escChar ++ ('"' :: (':' :: (stringifyVal v
          ++ stringifyFieldsTail fs)))) := by
  rw [stringifyFields, escString]
  simp

theorem parseVal_obj_step (f : Nat) (k : List Char) (v : Json)
    (fs : List (List Char × Json)) (rest : List Char) :
    parseVal (f + 1) ('\x7b' :: (stringifyFields ((k, v) :: fs) ++ ('\x7d' :: rest)))
      = (match parseFields f (stringifyFields ((k, v) :: fs) ++ ('\x7d' :: rest)) with
         | some (fs2, r3) => some (Json.obj fs2, r3)
         | none => none) := by
  have hcons : stringifyFields ((k, v) :: fs) ++ ('\x7d' :: rest)
      = '"' :: (k.flatMap escChar ++ ('"' :: (':' :: (stringifyVal v
          ++ stringifyFieldsTail fs))) ++ ('\x7d' :: rest)) := by
    rw [stringifyFields_cons]
    simp
  have hstep : parseVal (f + 1) ('\x7b' :: (stringifyFields ((k, v) :: fs) ++ ('\x7d' :: rest)))
      = (match skipWs (stringifyFields ((k, v) :: fs) ++ ('\x7d' :: rest)) with
         | [] => none
         | c :: r2 =>
           if c = '\x7d' then some (.obj [], r2)
           else
             match parseFields f (c :: r2) with
             | some (fs2, r3) => some (.obj fs2, r3)
             | none => none) := rfl
  rw [hstep, hcons, skipWs_cons '"' _ rfl]
  rfl

theorem parseElems_succ (f : Nat) (s : List Char) :
    parseElems (f + 1) s
      = (match parseVal f s with
         | none => none
         | some (v, r) =>
           match skipWs r with
           | ',' :: r2 =>
             match parseElems f r2 with
             | some (l, r3) => some (v :: l, r3)
             | none => none
           | ']' :: r2 => some ([v], r2)
           | _ => none) := rfl

theorem parseFields_succ (f : Nat) (s : List Char) :
    parseFields (f + 1) s
      = (match skipWs s with
         | '"' :: r =>
           match parseStringBody r with
           | none => none
           | some (k, r1) =>
             match skipWs r1 with
             | ':' :: r2 =>
               match parseVal f r2 with
               | none => none
               | some (v, r3) =>
                 match skipWs r3 with
                 | ',' :: r4 =>
                   match parseFields f r4 with
                   | some (fs, r5) => some ((k, v) :: fs, r5)
                   | none => none
                 | '\x7d' :: r4 => some ([(k, v)], r4)
                 | _ => none
             | _ => none
         | _ => none) := rfl

mutual
theorem rt_val : ∀ (j : Json) (fuel : Nat) (rest : List Char),
    (stringifyVal j).length < fuel → numStop rest →
    parseVal fuel (stringifyVal j ++ rest) = some (j, rest)
  | .null, fuel, rest, hf, _ => by
    cases fuel with
    | zero => simp [stringifyVal] at hf
    | succ f =>
      simp only [stringifyVal, List.cons_append, List.nil_append]
      rfl
  | .bool true, fuel, rest, hf, _ => by
    cases fuel with
    | zero => simp [stringifyVal] at hf
    | succ f =>
      simp only [stringifyVal, List.cons_append, List.nil_append]
      rfl
  | .bool false, fuel, rest, hf, _ => by
    cases fuel with
    | zero => simp [stringifyVal] at hf
    | succ f =>
      simp only [stringifyVal, List.cons_append, List.nil_append]
      rfl
  | .num i, fuel, rest, hf, hrest => by
    cases fuel with
    | zero => exact absurd hf (Nat.not_lt_zero _)
    | succ f =>
      rw [show stringifyVal (.num i) = intDec i from rfl]
      exact parseVal_num i f rest hrest
  | .str s, fuel, rest, hf, _ => by
    cases fuel with
    | zero => exact absurd hf (Nat.not_lt_zero _)
    | succ f =>
      have harg : stringifyVal (.str s) ++ rest
          = '"' :: (s.flatMap escChar ++ ('"' :: rest)) := by
        rw [stringifyVal, escString]
        simp
      rw [harg]
      have hstep : parseVal (f + 1) ('"' :: (s.flatMap escChar ++ ('"' :: rest)))
          = (match parseStringBody (s.flatMap escChar ++ ('"' :: rest)) with
             | some (cs, r2) => some (.str cs, r2)
             | none => none) := rfl
      rw [hstep, parseStringBody_flatMap]
  | .arr [], fuel, rest, hf, _ => by
    cases fuel with
    | zero => exact absurd hf (Nat.not_lt_zero _)
    | succ f =>
      have harg : stringifyVal (.arr []) ++ rest = '[' :: ']' :: rest := by
        rw [stringifyVal, stringifyElems]
        simp
      rw [harg]
      rfl
  | .arr (e :: es), fuel, rest, hf, hrest => by
    cases fuel with
    | zero => exact absurd hf (Nat.not_lt_zero _)
    | succ f =>
      have harg : stringifyVal (.arr (e :: es)) ++ rest
          = '[' :: (stringifyElems (e :: es) ++ (']' :: rest)) := by
        rw [stringifyVal]
        simp
      have hfe : (stringifyElems (e :: es)).length + 1 < f := by
        rw [show stringifyVal (.arr (e :: es))
            = '[' :: (stringifyElems (e :: es) ++ [']']) from rfl] at hf
        simp only [List.length_cons, List.length_append] at hf
        omega
      have key := rt_elems e es f rest hfe hrest
      rw [harg, parseVal_arr_step f e es rest, key]
  | .obj [], fuel, rest, hf, _ => by
    cases fuel with
    | zero => exact absurd hf (Nat.not_lt_zero _)
    | succ f =>
      have harg : stringifyVal (.obj []) ++ rest = '\x7b' :: '\x7d' :: rest := by
        rw [stringifyVal, stringifyFields]
        simp
      rw [harg]
      rfl
  | .obj ((k, v) :: fs), fuel, rest, hf, hrest => by
    cases fuel with
    | zero => exact absurd hf (Nat.not_lt_zero _)
    | succ f =>
      have harg : stringifyVal (.obj ((k, v) :: fs)) ++ rest
          = '\x7b' :: (stringifyFields ((k, v) :: fs) ++ ('\x7d' :: rest)) := by
        rw [stringifyVal]
        simp
      have hff : (stringifyFields ((k, v) :: fs)).length + 1 < f := by
        rw [show stringifyVal (.obj ((k, v) :: fs))
            = '\x7b' :: (stringifyFields ((k, v) :: fs) ++ ['\x7d']) from rfl] at hf
        simp only [List.length_cons, List.length_append] at hf
        omega
      have key := rt_fields k v fs f rest hff hrest
      rw [harg, parseVal_obj_step f k v fs rest, key]
termination_by j _ _ _ _ => sizeOf j

theorem rt_elems : ∀ (e : Json) (es : List Json) (fuel : Nat) (rest : List Char),
    (stringifyElems (e :: es)).length + 1 < fuel → numStop rest →
    parseElems fuel (stringifyElems (e :: es) ++ (']' :: rest)) = some (e :: es, rest)
  | e, [], fuel, rest, hf, hrest => by
    cases fuel with
    | zero => omega
    | succ f =>
      have harg : stringifyElems (e :: []) ++ (']' :: rest)
          = stringifyVal e ++ (']' :: rest) := by
        rw [stringifyElems, stringifyElemsTail]
        simp
      have hfe : (stringifyVal e).length < f := by
        rw [stringifyElems, stringifyElemsTail, List.append_nil] at hf
        omega
      have hv := rt_val e f (']' :: rest) hfe (by exact rfl)
      have hws1 : skipWs (']' :: rest) = ']' :: rest := skipWs_cons _ _ rfl
      rw [harg, parseElems_succ, hv]
      simp [hws1]
  | e, x :: xs, fuel, rest, hf, hrest => by
    cases fuel with
    | zero => omega
    | succ f =>
      have hlen : (stringifyElems (e :: x :: xs)).length
          = (stringifyVal e).length + 1 + (stringifyElems (x :: xs)).length := by
        conv_lhs => rw [stringifyElems, stringifyElemsTail]
        rw [stringifyElems]
        simp
        omega
      have hpos := stringifyVal_length_pos e
      have hfe : (stringifyVal e).length < f := by omega
      have hfx : (stringifyElems (x :: xs)).length + 1 < f := by omega
      have harg : stringifyElems (e :: x :: xs) ++ (']' :: rest)
          = stringifyVal e ++ (',' :: (stringifyElems (x :: xs) ++ (']' :: rest))) := by
        conv_lhs => rw [stringifyElems, stringifyElemsTail]
        rw [stringifyElems]
        simp
      have hv := rt_val e f (',' :: (stringifyElems (x :: xs) ++ (']' :: rest))) hfe
        (by exact rfl)
      have key := rt_elems x xs f rest hfx hrest
      have hws1 : skipWs (',' :: (stringifyElems (x :: xs) ++ (']' :: rest)))
          = ',' :: (stringifyElems (x :: xs) ++ (']' :: rest)) := skipWs_cons _ _ rfl
      rw [harg, parseElems_succ, hv]
      simp [hws1, key]
termination_by e es _ _ _ _ => sizeOf e + sizeOf es

theorem rt_fields : ∀ (k : List Char) (v : Json) (fs : List (List Char × Json))
    (fuel : Nat) (rest : List Char),
    (stringifyFields ((k, v) :: fs)).length + 1 < fuel → numStop rest →
    parseFields fuel (stringifyFields ((k, v) :: fs) ++ ('\x7d' :: rest))
      = some ((k, v) :: fs, rest)
  | k, v, [], fuel, rest, hf, hrest => by
    cases fuel with
    | zero => omega
    | succ f =>
      have harg : stringifyFields ((k, v) :: []) ++ ('\x7d' :: rest)
          = '"' :: (k.flatMap escChar ++ ('"' :: (':' :: (stringifyVal v
              ++ ('\x7d' :: rest))))) := by
        rw [stringifyFields_cons, stringifyFieldsTail]
        simp
      have hfe : (stringifyVal v).length < f := by
        rw [stringifyFields_cons, stringifyFieldsTail] at hf
        simp only [List.length_cons, List.length_append] at hf
        omega
      have hv := rt_val v f ('\x7d' :: rest) hfe (by exact rfl)
      have hws1 : skipWs ('\x7d' :: rest) = '\x7d' :: rest := skipWs_cons _ _ rfl
      have hws2 : skipWs (':' :: (stringifyVal v ++ ('\x7d' :: rest)))
          = ':' :: (stringifyVal v ++ ('\x7d' :: rest)) := skipWs_cons _ _ rfl
      have hws0 : skipWs ('"' :: (k.flatMap escChar ++ ('"' :: (':' :: (stringifyVal v
          ++ ('\x7d' :: rest)))))) = '"' :: (k.flatMap escChar ++ ('"' :: (':' :: (stringifyVal v
          ++ ('\x7d' :: rest))))) := skipWs_cons _ _ rfl
      rw [harg, parseFields_succ, hws0]
      simp [parseStringBody_flatMap, hws2, hv, hws1]
  | k, v, (k2, v2) :: fs, fuel, rest, hf, hrest => by
    cases fuel with
    | zero => omega
    | succ f =>
      have hesc : 2 ≤ (escString k).length := by
        rw [escString]
        simp
      have hlen : (stringifyFields ((k, v) :: (k2, v2) :: fs)).length
          = (escString k).length + 1 + (stringifyVal v).length + 1
            + (stringifyFields ((k2, v2) :: fs)).length := by
        conv_lhs => rw [stringifyFields, stringifyFieldsTail]
        rw [stringifyFields]
        simp
        omega
      have hpos := stringifyVal_length_pos v
      have hfe : (stringifyVal v).length < f := by omega
      have hfx : (stringifyFields ((k2, v2) :: fs)).length + 1 < f := by omega
      have harg : stringifyFields ((k, v) :: (k2, v2) :: fs) ++ ('\x7d' :: rest)
          = '"' :: (k.flatMap escChar ++ ('"' :: (':' :: (stringifyVal v
              ++ (',' :: (stringifyFields ((k2, v2) :: fs) ++ ('\x7d' :: rest))))))) := by
        conv_lhs => rw [stringifyFields_cons, stringifyFieldsTail]
        rw [stringifyFields]
        simp
      have hv := rt_val v f
        (',' :: (stringifyFields ((k2, v2) :: fs) ++ ('\x7d' :: rest))) hfe (by exact rfl)
      have key := rt_fields k2 v2 fs f rest hfx hrest
      have hws1 : skipWs (',' :: (stringifyFields ((k2, v2) :: fs) ++ ('\x7d' :: rest)))
          = ',' :: (stringifyFields ((k2, v2) :: fs) ++ ('\x7d' :: rest)) := skipWs_cons _ _ rfl
      have hws2 : skipWs (':' :: (stringifyVal v ++ (',' :: (stringifyFields ((k2, v2) :: fs)
          ++ ('\x7d' :: rest))))) = ':' :: (stringifyVal v ++ (',' :: (stringifyFields
          ((k2, v2) :: fs) ++ ('\x7d' :: rest)))) := skipWs_cons _ _ rfl
      have hws0 := skipWs_cons '"' (k.flatMap escChar ++ ('"' :: (':' :: (stringifyVal v
          ++ (',' :: (stringifyFields ((k2, v2) :: fs) ++ ('\x7d' :: rest))))))) rfl
      rw [harg, parseFields_succ, hws0]
      simp [parseStringBody_flatMap, hws2, hv, hws1, key]
termination_by k v fs _ _ _ _ => sizeOf v + sizeOf fs
end

/-- `JSON.parse` inverts `JSON.stringify` on the modelled fragment. -/
theorem parseJson_stringify (j : Json) : parseJson (stringifyVal j) = some j := by
  rw [parseJson]
  have h := rt_val j ((stringifyVal j).length + 1) [] (by omega) trivial
  rw [List.append_nil] at h
  rw [h]
  rfl

/-! ## The share payload (`types.ts`, `ArticleView.handleShareLink`)

Data model from `src/types.ts`; strings are `List Char`, the chart value is an
integer (`number` restricted to the integer fragment of the embedding), and the
optional fields are `Option`s, omitted from the serialized object when absent
(as `JSON.stringify` omits `undefined` fields). -/

structure ChartDataPoint where
  name : List Char
  value : Int
deriving DecidableEq

structure BlogChart where
  title : List Char
  type : List Char
  data : List ChartDataPoint
deriving DecidableEq

structure SponsoredLink where
  anchor : List Char
  url : List Char
  description : List Char
deriving DecidableEq

structure BlogPostData where
  title : List Char
  introduction : List Char
  body : List Char
  conclusion : List Char
  chart : Option BlogChart
  imagePrompt : List Char
  sponsoredLink : Option SponsoredLink
deriving DecidableEq

/-- The object built in `handleShareLink`: `{ data, category, logo }`. -/
structure SharePayload where
  data : BlogPostData
  category : List Char
  logo : Option (List Char)
deriving DecidableEq

def chartPointJson (p : ChartDataPoint) : Json :=
  .obj [("name".data, .str p.name), ("value".data, .num p.value)]

def chartJson (c : BlogChart) : Json :=
  .obj [("title".data, .str c.title), ("type".data, .str c.type),
    ("data".data, .arr (c.data.map chartPointJson))]

def sponsoredLinkJson (l : SponsoredLink) : Json :=
  .obj [("anchor".data, .str l.anchor), ("url".data, .str l.url),
    ("description".data, .str l.description)]

def articleJson (a : BlogPostData) : Json :=
  .obj ([("title".data, .str a.title), ("introduction".data, .str a.introduction),
      ("body".data, .str a.body), ("conclusion".data, .str a.conclusion)]
    ++ (match a.chart with
        | some c => [("chart".data, chartJson c)]
        | none => [])
    ++ [("imagePrompt".data, .str a.imagePrompt)]
    ++ (match a.sponsoredLink with
        | some l => [("sponsoredLink".data, sponsoredLinkJson l)]
        | none => []))

def payloadJson (p : SharePayload) : Json :=
  .obj [("data".data, articleJson p.data), ("category".data, .str p.category),
    ("logo".data, match p.logo with
      | some s => .str s
      | none => .null)]

/-- `handleShareLink`'s token:
`btoa(<utf8 bytes of> JSON.stringify(sharePayload))`. -/
def encodeSharePayload (p : SharePayload) : List Char :=
  b64Encode (utf8Encode (stringifyVal (payloadJson p)))

/-! ### Decoding (`App.handleHashChange`) -/

/-- Property lookup on a parsed object: the last binding wins, as when
`JSON.parse` builds a JavaScript object with duplicate keys. -/
def lookupField (fields : List (List Char × Json)) (key : List Char) : Option Json :=
  (fields.reverse.find? (fun f => f.1 == key)).map (fun f => f.2)

/-- JavaScript truthiness of a parsed JSON value (`payload && payload.data`). -/
def jsTruthy : Json → Bool
  | .null => false
  | .bool b => b
  | .num n => decide (n ≠ 0)
  | .str s => decide (s ≠ [])
  | .arr _ => true
  | .obj _ => true

def asStr : Json → Option (List Char)
  | .str s => some s
  | _ => none

def mapOption {α β : Type} (f : α → Option β) : List α → Option (List β)
  | [] => some []
  | x :: xs => do
    let y ← f x
    let ys ← mapOption f xs
    some (y :: ys)

def chartPointOfJson : Json → Option ChartDataPoint
  | .obj fs => do
    let n ← (lookupField fs "name".data).bind asStr
    let v ← match lookupField fs "value".data with
      | some (.num v) => some v
      | _ => none
    some ⟨n, v⟩
  | _ => none

def chartOfJson : Json → Option BlogChart
  | .obj fs => do
    let t ← (lookupField fs "title".data).bind asStr
    let ty ← (lookupField fs "type".data).bind asStr
    let d ← match lookupField fs "data".data with
      | some (.arr l) => mapOption chartPointOfJson l
      | _ => none
    some ⟨t, ty, d⟩
  | _ => none

def sponsoredLinkOfJson : Json → Option SponsoredLink
  | .obj fs => do
    let a ← (lookupField fs "anchor".data).bind asStr
    let u ← (lookupField fs "url".data).bind asStr
    let d ← (lookupField fs "description".data).bind asStr
    some ⟨a, u, d⟩
  | _ => none

/-- The typed reading of the installed `payload.data`: `handleHashChange`
installs the raw object with `setBlogData(payload.data)` and the rest of the
application consumes it through exactly these `BlogPostData` fields. -/
def articleOfJson : Json → Option BlogPostData
  | .obj fs => do
    let t ← (lookupField fs "title".data).bind asStr
    let intro ← (lookupField fs "introduction".data).bind asStr
    let b ← (lookupField fs "body".data).bind asStr
    let con ← (lookupField fs "conclusion".data).bind asStr
    let ip ← (lookupField fs "imagePrompt".data).bind asStr
    let ch ← match lookupField fs "chart".data with
      | none => some none
      | some cj => (chartOfJson cj).map some
    let sl ← match lookupField fs "sponsoredLink".data with
      | none => some none
      | some lj => (sponsoredLinkOfJson lj).map some
    some ⟨t, intro, b, con, ch, ip, sl⟩
  | _ => none

/-- The tail of `handleHashChange` after `JSON.parse`: the
`payload && payload.data` truthiness check, then `payload.category || ''` and
`payload.logo || null` (non-string `category`/`logo` fields fall back to the
same defaults in the model). -/
def payloadOfJson (pj : Json) : Option SharePayload :=
  match pj with
  | .obj fs => do
    let d ← lookupField fs "data".data
    if jsTruthy d then do
      let article ← articleOfJson d
      some ⟨article,
        (match lookupField fs "category".data with
          | some (.str c) => c
          | _ => []),
        (match lookupField fs "logo".data with
          | some (.str l) => if l = [] then none else some l
          | _ => none)⟩
    else none
  | _ => none

/-- The decode of `handleHashChange`: `atob`, UTF-8 decode, `JSON.parse`, then
`payloadOfJson`.  Every failure is `none` — the surrounding `try`/`catch`
swallows it. -/
def decodeShareToken (token : List Char) : Option SharePayload := do
  let bytes ← b64Decode token
  let text ← utf8Decode bytes
  let pj ← parseJson text
  payloadOfJson pj

theorem chartPointOfJson_chartPointJson (p : ChartDataPoint) :
    chartPointOfJson (chartPointJson p) = some p := rfl

theorem mapOption_chartPoints (l : List ChartDataPoint) :
    mapOption chartPointOfJson (l.map chartPointJson) = some l := by
  induction l with
  | nil => rfl
  | cons p t ih =>
    rw [List.map_cons, mapOption, chartPointOfJson_chartPointJson, ih]
    rfl

theorem chartOfJson_chartJson (c : BlogChart) : chartOfJson (chartJson c) = some c := by
  obtain ⟨t, ty, d⟩ := c
  show (mapOption chartPointOfJson (List.map chartPointJson d)).bind
      (fun dd => some (⟨t, ty, dd⟩ : BlogChart)) = some ⟨t, ty, d⟩
  rw [mapOption_chartPoints]
  rfl

theorem sponsoredLinkOfJson_sponsoredLinkJson (l : SponsoredLink) :
    sponsoredLinkOfJson (sponsoredLinkJson l) = some l := rfl

theorem articleOfJson_articleJson (a : BlogPostData) :
    articleOfJson (articleJson a) = some a := by
  obtain ⟨t, intro, b, con, ch, ip, sl⟩ := a
  cases ch with
  | none =>
    cases sl with
    | none => rfl
    | some l =>
      show ((sponsoredLinkOfJson (sponsoredLinkJson l)).map some).bind
          (fun sl2 => some (⟨t, intro, b, con, none, ip, sl2⟩ : BlogPostData))
          = some ⟨t, intro, b, con, none, ip, some l⟩
      rw [sponsoredLinkOfJson_sponsoredLinkJson]
      rfl
  | some c =>
    cases sl with
    | none =>
      show ((chartOfJson (chartJson c)).map some).bind
          (fun ch2 => some (⟨t, intro, b, con, ch2, ip, none⟩ : BlogPostData))
          = some ⟨t, intro, b, con, some c, ip, none⟩
      rw [chartOfJson_chartJson]
      rfl
    | some l =>
      show ((chartOfJson (chartJson c)).map some).bind
          (fun ch2 => ((sponsoredLinkOfJson (sponsoredLinkJson l)).map some).bind
            (fun sl2 => some (⟨t, intro, b, con, ch2, ip, sl2⟩ : BlogPostData)))
          = some ⟨t, intro, b, con, some c, ip, some l⟩
      rw [chartOfJson_chartJson, sponsoredLinkOfJson_sponsoredLinkJson]
      rfl

theorem jsTruthy_articleJson (a : BlogPostData) : jsTruthy (articleJson a) = true := by
  rw [articleJson]
  rfl

theorem decodeShareToken_encode (p : SharePayload)
    (hlogo : p.logo = none ∨ ∃ s, p.logo = some s ∧ s ≠ []) :
    decodeShareToken (encodeSharePayload p) = some p := by
  obtain ⟨a, cat, logo⟩ := p
  cases logo with
  | none =>
    have h1 : b64Decode (b64Encode (utf8Encode (stringifyVal (payloadJson ⟨a, cat, none⟩))))
        = some (utf8Encode (stringifyVal (payloadJson ⟨a, cat, none⟩))) :=
      b64Decode_encode _ (utf8Encode_lt _)
    have h2 : utf8Decode (utf8Encode (stringifyVal (payloadJson ⟨a, cat, none⟩)))
        = some (stringifyVal (payloadJson ⟨a, cat, none⟩)) := utf8Decode_encode _
    have h3 : parseJson (stringifyVal (payloadJson ⟨a, cat, none⟩))
        = some (payloadJson ⟨a, cat, none⟩) := parseJson_stringify _
    rw [decodeShareToken, encodeSharePayload, h1]
    simp only [Option.bind_eq_bind, Option.some_bind]
    rw [h2]
    simp only [Option.some_bind]
    rw [h3]
    simp only [Option.some_bind]
    show (articleOfJson (articleJson a)).bind
        (fun article => some (⟨article, cat, none⟩ : SharePayload)) = some ⟨a, cat, none⟩
    rw [articleOfJson_articleJson a]
    rfl
  | some s =>
    have hne : s ≠ [] := by
      rcases hlogo with h | ⟨s2, hs2, hne2⟩
      · simp at h
      · simp only [Option.some.injEq] at hs2
        rwa [hs2]
    have h1 : b64Decode (b64Encode (utf8Encode (stringifyVal (payloadJson ⟨a, cat, some s⟩))))
        = some (utf8Encode (stringifyVal (payloadJson ⟨a, cat, some s⟩))) :=
      b64Decode_encode _ (utf8Encode_lt _)
    have h2 : utf8Decode (utf8Encode (stringifyVal (payloadJson ⟨a, cat, some s⟩)))
        = some (stringifyVal (payloadJson ⟨a, cat, some s⟩)) := utf8Decode_encode _
    have h3 : parseJson (stringifyVal (payloadJson ⟨a, cat, some s⟩))
        = some (payloadJson ⟨a, cat, some s⟩) := parseJson_stringify _
    rw [decodeShareToken, encodeSharePayload, h1]
    simp only [Option.bind_eq_bind, Option.some_bind]
    rw [h2]
    simp only [Option.some_bind]
    rw [h3]
    simp only [Option.some_bind]
    show (articleOfJson (articleJson a)).bind
        (fun article =>
          some (⟨article, cat, if s = [] then none else some s⟩ : SharePayload))
        = some ⟨a, cat, some s⟩
    rw [articleOfJson_articleJson a]
    simp only [Option.some_bind]
    rw [if_neg hne]

/-! ## The article session (`App.tsx`)

The pieces of `App` state that the embedded handlers touch. -/

structure Session where
  blogData : Option BlogPostData
  isLoading : Bool
  isGeneratingMore : Bool
  error : Option (List Char)
  logo : Option (List Char)
  currentCategory : List Char
deriving DecidableEq

/-- `handleHashChange`: if the location hash starts with `#share=`, strip that
prefix, decode, and on success install `payload.data` / `payload.category` /
`payload.logo`; on any decode failure the `catch` leaves the session as it
was. -/
def handleHashChange (s : Session) (hash : List Char) : Session :=
  if hash.take 7 = "#share=".data then
    match decodeShareToken (hash.drop 7) with
    | some p => { s with blogData := some p.data, currentCategory := p.category, logo := p.logo }
    | none => s
  else s

/-! ## `handleShareLink` (`ArticleView.tsx`) -/

/-- JavaScript truthiness of the `logo` state (`!!logo`): a non-empty string. -/
def logoTruthy : Option (List Char) → Bool
  | none => false
  | some s => !s.isEmpty

/-- `generateUrl(includeLogo)`:
`origin + pathname + '#share=' + <encoded payload>`. -/
def generateUrl (origin pathname : List Char) (data : BlogPostData) (category : List Char)
    (logo : Option (List Char)) (includeLogo : Bool) : List Char :=
  origin ++ pathname ++ "#share=".data
    ++ encodeSharePayload ⟨data, category, if includeLogo then logo else none⟩

/-- `handleShareLink`: build the URL with the logo included iff `!!logo`; if
the URL exceeds 30,000 characters and a (truthy) logo was included, rebuild it
once with the logo omitted. -/
def handleShareLink (origin pathname : List Char) (data : BlogPostData) (category : List Char)
    (logo : Option (List Char)) : List Char :=
  let url := generateUrl origin pathname data category logo (logoTruthy logo)
  if 30000 < url.length ∧ logoTruthy logo = true then
    generateUrl origin pathname data category logo false
  else url

/-! ## Length bounds for the size-degradation claim -/

theorem escChar_length_pos (c : Char) : 1 ≤ (escChar c).length := by
  rw [escChar]
  split_ifs <;> simp

theorem flatMap_escChar_ge (s : List Char) : s.length ≤ (s.flatMap escChar).length := by
  induction s with
  | nil => simp
  | cons c t ih =>
    rw [List.flatMap_cons, List.length_append]
    have := escChar_length_pos c
    simp only [List.length_cons]
    omega

theorem escString_length_ge (s : List Char) : s.length ≤ (escString s).length := by
  have h := flatMap_escChar_ge s
  rw [escString]
  simp only [List.length_cons, List.length_append]
  omega

theorem payloadJson_stringify_length (d : BlogPostData) (c s : List Char) :
    s.length ≤ (stringifyVal (payloadJson ⟨d, c, some s⟩)).length := by
  have h := escString_length_ge s
  rw [show payloadJson ⟨d, c, some s⟩ = Json.obj [("data".data, articleJson d),
    ("category".data, .str c), ("logo".data, Json.str s)] from rfl]
  rw [stringifyVal, stringifyFields, stringifyFieldsTail, stringifyFieldsTail,
    stringifyFieldsTail]
  rw [show stringifyVal (Json.str s) = escString s from rfl]
  simp only [List.length_cons, List.length_append]
  omega

theorem b64Encode_length (bs : List Nat) : (b64Encode bs).length = 4 * ((bs.length + 2) / 3) := by
  induction bs using b64Encode.induct with
  | case1 => rw [b64Encode]; simp
  | case2 b1 => rw [b64Encode]; simp
  | case3 b1 b2 => rw [b64Encode]; simp
  | case4 b1 b2 b3 rest ih =>
    rw [b64Encode]
    simp only [List.length_cons, ih]
    omega

theorem encodeSharePayload_length_ge (p : SharePayload) :
    (stringifyVal (payloadJson p)).length ≤ (encodeSharePayload p).length := by
  rw [encodeSharePayload, b64Encode_length]
  have h1 := utf8Encode_length_ge (stringifyVal (payloadJson p))
  omega

/-! ## Claim C1: the share-codec round-trip -/

/-- A small concrete article used by concrete checks. -/
def tinyArticle : BlogPostData :=
  ⟨"t".data, "i".data, "b".data, "c".data, none, "p".data, none⟩

/-- A concrete article with non-ASCII Polish text and a four-byte emoji. -/
def polishArticle : BlogPostData :=
  ⟨"Tytuł artykułu".data, "Wstęp 😀".data, "treść łąka".data, "交 koniec".data, none,
    "obraz ż".data, none⟩

def polishPayload : SharePayload :=
  ⟨polishArticle, "Zdrowie".data, some "data:image/png;base64,AAAA".data⟩

def emptyLogoPayload : SharePayload := ⟨tinyArticle, "k".data, some []⟩

set_option maxRecDepth 40000 in
/-- C1, counterexample: the round-trip `decode(encode(p)) = p` fails, as stated
over all `SharePayload`s, at the payload whose `logo` is the empty string: its
token is within the 30,000-character budget, yet decoding it yields
`logo = null` (from `payload.logo || null`), not the empty string. -/
theorem share_roundtrip_counterexample :
    (encodeSharePayload emptyLogoPayload).length ≤ 30000
    ∧ decodeShareToken (encodeSharePayload emptyLogoPayload) ≠ some emptyLogoPayload
    ∧ decodeShareToken (encodeSharePayload emptyLogoPayload)
        = some ⟨tinyArticle, "k".data, none⟩ := by
  refine ⟨by decide, by decide, by decide⟩

/-- C1 (amended): for every `SharePayload` whose encoded token is within the
30,000-character budget and whose `logo` is absent or a non-empty string —
including payloads with non-ASCII multi-byte text — decoding the token
produced by `encode` yields the original payload. -/
theorem share_roundtrip_amended (p : SharePayload)
    (hlogo : p.logo = none ∨ ∃ s, p.logo = some s ∧ s ≠ [])
    (hsize : (encodeSharePayload p).length ≤ 30000) :
    decodeShareToken (encodeSharePayload p) = some p :=
  decodeShareToken_encode p hlogo

set_option maxRecDepth 40000 in
/-- C1 witness: the round-trip at a concrete payload with Polish diacritics,
a CJK character, an emoji and a non-empty logo. -/
theorem share_roundtrip_amended_witness :
    (polishPayload.logo = none ∨ ∃ s, polishPayload.logo = some s ∧ s ≠ [])
    ∧ (encodeSharePayload polishPayload).length ≤ 30000
    ∧ decodeShareToken (encodeSharePayload polishPayload) = some polishPayload :=
  ⟨Or.inr ⟨"data:image/png;base64,AAAA".data, rfl, by decide⟩, by decide,
    share_roundtrip_amended polishPayload
      (Or.inr ⟨"data:image/png;base64,AAAA".data, rfl, by decide⟩) (by decide)⟩

/-! ## Claim C3: size-bounded logo degradation -/

/-- C3: (a) if the encoded token with a (truthy) logo exceeds 30,000
characters, `handleShareLink` returns the URL built from the same payload with
`logo = null`; (b) with no truthy logo the URL is returned as built — there is
no size-based failure or re-encoding, however long the token. -/
theorem share_size_degradation :
    (∀ origin pathname data category logo,
        logoTruthy logo = true →
        30000 < (encodeSharePayload ⟨data, category, logo⟩).length →
        handleShareLink origin pathname data category logo
          = origin ++ pathname ++ "#share=".data ++ encodeSharePayload ⟨data, category, none⟩)
    ∧ (∀ origin pathname data category logo,
        logoTruthy logo = false →
        handleShareLink origin pathname data category logo
          = origin ++ pathname ++ "#share=".data ++ encodeSharePayload ⟨data, category, none⟩) := by
  constructor
  · intro o pa d c l hl hlen
    have hurl : generateUrl o pa d c l (logoTruthy l)
        = o ++ pa ++ "#share=".data ++ encodeSharePayload ⟨d, c, l⟩ := by
      rw [generateUrl, hl]
      simp
    have hurl2 : generateUrl o pa d c l false
        = o ++ pa ++ "#share=".data ++ encodeSharePayload ⟨d, c, none⟩ := rfl
    have hcond : 30000 < (generateUrl o pa d c l (logoTruthy l)).length
        ∧ logoTruthy l = true := by
      refine ⟨?_, hl⟩
      rw [hurl]
      simp only [List.length_append]
      omega
    show (if 30000 < (generateUrl o pa d c l (logoTruthy l)).length ∧ logoTruthy l = true
        then generateUrl o pa d c l false
        else generateUrl o pa d c l (logoTruthy l)) = _
    rw [if_pos hcond, hurl2]
  · intro o pa d c l hl
    have hurl : generateUrl o pa d c l (logoTruthy l)
        = o ++ pa ++ "#share=".data ++ encodeSharePayload ⟨d, c, none⟩ := by
      rw [generateUrl, hl]
      simp
    show (if 30000 < (generateUrl o pa d c l (logoTruthy l)).length ∧ logoTruthy l = true
        then generateUrl o pa d c l false
        else generateUrl o pa d c l (logoTruthy l)) = _
    rw [if_neg (by simp [hl]), hurl]

def bigLogo : List Char := List.replicate 30100 'a'

/-- C3 witness: a 30,100-character logo pushes the token over budget, and the
link is rebuilt with the logo dropped; an empty logo state is never re-encoded. -/
theorem share_size_degradation_witness :
    (logoTruthy (some bigLogo) = true
      ∧ 30000 < (encodeSharePayload ⟨tinyArticle, "k".data, some bigLogo⟩).length
      ∧ handleShareLink [] [] tinyArticle "k".data (some bigLogo)
          = [] ++ [] ++ "#share=".data ++ encodeSharePayload ⟨tinyArticle, "k".data, none⟩)
    ∧ (logoTruthy none = false
      ∧ handleShareLink [] [] tinyArticle "k".data none
          = [] ++ [] ++ "#share=".data ++ encodeSharePayload ⟨tinyArticle, "k".data, none⟩) := by
  have hbig : 30000 < (encodeSharePayload ⟨tinyArticle, "k".data, some bigLogo⟩).length := by
    have h1 := payloadJson_stringify_length tinyArticle "k".data bigLogo
    have h2 := encodeSharePayload_length_ge ⟨tinyArticle, "k".data, some bigLogo⟩
    have h3 : bigLogo.length = 30100 := by rw [bigLogo, List.length_replicate]
    omega
  refine ⟨⟨rfl, hbig, share_size_degradation.1 [] [] tinyArticle "k".data (some bigLogo) rfl hbig⟩,
    rfl, share_size_degradation.2 [] [] tinyArticle "k".data none rfl⟩

/-! ## Claim C8: malformed share tokens leave the session unchanged -/

/-- The malformed-token classes of the claim: not valid base64, bytes that are
not valid UTF-8, text that does not parse as JSON, or a JSON object with no
`data` field. -/
def malformedShareToken (t : List Char) : Prop :=
  b64Decode t = none
  ∨ (∃ bs, b64Decode t = some bs ∧ utf8Decode bs = none)
  ∨ (∃ bs txt, b64Decode t = some bs ∧ utf8Decode bs = some txt ∧ parseJson txt = none)
  ∨ (∃ bs txt fs, b64Decode t = some bs ∧ utf8Decode bs = some txt
      ∧ parseJson txt = some (.obj fs) ∧ lookupField fs "data".data = none)

theorem decodeShareToken_malformed (t : List Char) (h : malformedShareToken t) :
    decodeShareToken t = none := by
  rw [decodeShareToken]
  rcases h with h1 | ⟨bs, hbs, hutf⟩ | ⟨bs, txt, hbs, hutf, hparse⟩
    | ⟨bs, txt, fs, hbs, hutf, hparse, hlook⟩
  · rw [h1]
    rfl
  · rw [hbs]
    simp only [Option.bind_eq_bind, Option.some_bind]
    rw [hutf]
    rfl
  · rw [hbs]
    simp only [Option.bind_eq_bind, Option.some_bind]
    rw [hutf]
    simp only [Option.some_bind]
    rw [hparse]
    rfl
  · rw [hbs]
    simp only [Option.bind_eq_bind, Option.some_bind]
    rw [hutf]
    simp only [Option.some_bind]
    rw [hparse]
    simp only [Option.some_bind]
    rw [payloadOfJson]
    rw [hlook]
    rfl

/-- C8: a malformed `#share=<token>` fragment — not base64, not UTF-8, not
JSON, or JSON without the required `data` field — leaves the whole session
unchanged.  The decode is a total function into `Option`, mirroring that the
`try`/`catch` in `handleHashChange` lets no exception escape. -/
theorem hash_malformed_unchanged (s : Session) (t : List Char)
    (h : malformedShareToken t) :
    handleHashChange s ("#share=".data ++ t) = s := by
  have hdec : decodeShareToken t = none := decodeShareToken_malformed t h
  rw [handleHashChange]
  rw [show ("#share=".data ++ t).take 7 = "#share=".data from by
    rw [show (7 : Nat) = ("#share=".data).length from rfl]
    exact List.take_left _ _]
  rw [if_pos rfl]
  rw [show ("#share=".data ++ t).drop 7 = t from by
    rw [show (7 : Nat) = ("#share=".data).length from rfl]
    exact List.drop_left _ _]
  rw [hdec]

/-- A concrete non-empty session. -/
def sessionW : Session := ⟨some tinyArticle, false, false, none, some "L".data, "k".data⟩

set_option maxRecDepth 40000 in
/-- C8 witness: the spec's own example token `not-base64!!` (`atob` rejects
`-` and `!`), processed against a session already holding an article. -/
theorem hash_malformed_unchanged_witness :
    malformedShareToken "not-base64!!".data
    ∧ handleHashChange sessionW ("#share=".data ++ "not-base64!!".data) = sessionW :=
  ⟨Or.inl (by decide),
    hash_malformed_unchanged sessionW "not-base64!!".data (Or.inl (by decide))⟩

/-! ## Claim C2: concurrent `startGeneration` calls (`App.handleGenerate`)

`handleGenerate`'s asynchronous flow is embedded as an event sequence applied
in arrival order: the synchronous prefix of a call is one event, and the
resolution (or rejection) of its awaited response is another.  The request id
recorded on a resolution identifies which call produced it — but the
continuation in `handleGenerate` is `setBlogData(data)` with no generation
token, so the step function ignores it. -/

inductive SessionEvent where
  | genStart (topic : List Char) (category : List Char)
  | genResolve (reqId : Nat) (data : BlogPostData)
  | genReject (reqId : Nat)
deriving DecidableEq

def errorMessagePL : List Char :=
  "Ups! Wena twórcza chwilowo zniknęła (błąd API). Spróbuj ponownie za chwilę.".data

def stepSessionEvent (s : Session) : SessionEvent → Session
  | .genStart _ category =>
    { s with isLoading := true, error := none, blogData := none, currentCategory := category }
  | .genResolve _ data => { s with blogData := some data, isLoading := false }
  | .genReject _ => { s with error := some errorMessagePL, isLoading := false }

def runSession (s : Session) (evs : List SessionEvent) : Session :=
  evs.foldl stepSessionEvent s

def articleA : BlogPostData :=
  ⟨"Artykuł A".data, "iA".data, "bA".data, "cA".data, none, "pA".data, none⟩

def articleB : BlogPostData :=
  ⟨"Artykuł B".data, "iB".data, "bB".data, "cB".data, none, "pB".data, none⟩

/-- C2, counterexample: `startGeneration` is called twice; the second call's
response (request 2, `articleB`) arrives first and the first call's response
(request 1, `articleA`) arrives later.  The article ultimately installed is
`articleA` — the stale response from the first call overwrites the newer
article, because `handleGenerate` tags requests with no generation token. -/
theorem stale_response_counterexample :
    (runSession sessionW
      [SessionEvent.genStart "t1".data "c1".data,
       SessionEvent.genStart "t2".data "c2".data,
       SessionEvent.genResolve 2 articleB,
       SessionEvent.genResolve 1 articleA]).blogData = some articleA
    ∧ articleA ≠ articleB := by
  refine ⟨rfl, by decide⟩

/-- C2 (amended): with two overlapping `startGeneration` calls, the installed
article is that of whichever response arrives last, regardless of which call
issued it: a first-call response arriving after the second call's response
overwrites it (there is no stale-response discard). -/
theorem stale_response_amended (s : Session) (t1 c1 t2 c2 : List Char) (r1 r2 : Nat)
    (d1 d2 : BlogPostData) :
    (runSession s
      [SessionEvent.genStart t1 c1, SessionEvent.genStart t2 c2,
       SessionEvent.genResolve r2 d2, SessionEvent.genResolve r1 d1]).blogData
      = some d1 := rfl

/-! ## Claim C5: continuation appends to the body (`App.handleGenerateMore`) -/

/-- The update applied by `setBlogData(prev => ({ ...prev, body: prev.body +
"\n\n" + newContent }))`. -/
def appendContinuation (prev : BlogPostData) (newContent : List Char) : BlogPostData :=
  { prev with body := prev.body ++ "\n\n".data ++ newContent }

/-- Net effect of a successful `handleGenerateMore` run: the guard
`if (!blogData) return` aborts with no article; otherwise the continuation text
is appended in place and the `finally` clears `isGeneratingMore`. -/
def handleGenerateMoreSuccess (s : Session) (newContent : List Char) : Session :=
  match s.blogData with
  | none => s
  | some prev =>
    { s with
        blogData := some (appendContinuation prev newContent)
        isGeneratingMore := false }

/-- C5: a successful continuation with result `B` replaces the body `A` by
exactly `A ++ "\n\n" ++ B` in place; every other field is unchanged; an empty
result yields `A ++ "\n\n"`; and the prior body is a prefix of the new body. -/
theorem continuation_append (s : Session) (a : BlogPostData) (newContent : List Char)
    (h : s.blogData = some a) :
    (handleGenerateMoreSuccess s newContent).blogData
        = some (appendContinuation a newContent)
    ∧ (appendContinuation a newContent).body = a.body ++ "\n\n".data ++ newContent
    ∧ (appendContinuation a newContent).title = a.title
    ∧ (appendContinuation a newContent).introduction = a.introduction
    ∧ (appendContinuation a newContent).conclusion = a.conclusion
    ∧ (appendContinuation a newContent).imagePrompt = a.imagePrompt
    ∧ (appendContinuation a newContent).chart = a.chart
    ∧ (appendContinuation a newContent).sponsoredLink = a.sponsoredLink
    ∧ (newContent = [] → (appendContinuation a newContent).body = a.body ++ "\n\n".data)
    ∧ a.body <+: (appendContinuation a newContent).body := by
  refine ⟨by rw [handleGenerateMoreSuccess, h], rfl, rfl, rfl, rfl, rfl, rfl, rfl, ?_, ?_⟩
  · intro h0
    subst h0
    simp [appendContinuation]
  · show a.body <+: a.body ++ "\n\n".data ++ newContent
    rw [List.append_assoc]
    exact List.prefix_append _ _

/-- C5 witness: appending a concrete continuation to the session's article. -/
theorem continuation_append_witness :
    sessionW.blogData = some tinyArticle
    ∧ (handleGenerateMoreSuccess sessionW "x".data).blogData
        = some (appendContinuation tinyArticle "x".data) :=
  ⟨rfl, (continuation_append sessionW tinyArticle "x".data rfl).1⟩

/-! ## Claims C6, C7: history cache (`ArticleView.saveArticle`)

`saveArticle` reads the stored history, skips the insert when an entry with
the same title exists, otherwise unshifts a new entry and pops the last entry
once when the length exceeds 3 (`history.unshift(newEntry); if (history.length
> 3) history.pop()`).  The embedding takes the stored list explicitly and
returns the list that is written back. -/

structure StoredArticle where
  id : List Char
  title : List Char
  category : List Char
  date : List Char
  thumbnail : Option (List Char)
deriving DecidableEq

def saveArticle (history : List StoredArticle) (i t c d : List Char)
    (th : Option (List Char)) : List StoredArticle :=
  if history.any (fun h => h.title == t) then history
  else
    let h2 : List StoredArticle := ⟨i, t, c, d, th⟩ :: history
    if 3 < h2.length then h2.dropLast else h2

/-- Record a sequence of (id, title) pairs in order, with a fixed category,
date and thumbnail. -/
def recordAll (c d : List Char) (th : Option (List Char))
    (history : List StoredArticle) : List (List Char × List Char) → List StoredArticle
  | [] => history
  | (i, t) :: rest => recordAll c d th (saveArticle history i t c d th) rest

/-- C6: recording 5 articles with pairwise distinct titles into an empty
history leaves exactly the 3 most recent, most-recent-first; the two oldest
titles are absent; and no intermediate state ever exceeds 3 entries. -/
theorem history_bounded
    (i1 i2 i3 i4 i5 t1 t2 t3 t4 t5 c d : List Char) (th : Option (List Char))
    (h12 : t1 ≠ t2) (h13 : t1 ≠ t3) (h14 : t1 ≠ t4) (h15 : t1 ≠ t5)
    (h23 : t2 ≠ t3) (h24 : t2 ≠ t4) (h25 : t2 ≠ t5)
    (h34 : t3 ≠ t4) (h35 : t3 ≠ t5) (h45 : t4 ≠ t5) :
    (recordAll c d th [] [(i1, t1), (i2, t2), (i3, t3), (i4, t4), (i5, t5)]).map
        StoredArticle.title = [t5, t4, t3]
    ∧ t1 ∉ (recordAll c d th []
        [(i1, t1), (i2, t2), (i3, t3), (i4, t4), (i5, t5)]).map StoredArticle.title
    ∧ t2 ∉ (recordAll c d th []
        [(i1, t1), (i2, t2), (i3, t3), (i4, t4), (i5, t5)]).map StoredArticle.title
    ∧ ∀ k, (recordAll c d th []
        (List.take k [(i1, t1), (i2, t2), (i3, t3), (i4, t4), (i5, t5)])).length ≤ 3 := by
  have e1 : saveArticle [] i1 t1 c d th = [⟨i1, t1, c, d, th⟩] := by
    simp [saveArticle]
  have e2 : saveArticle [⟨i1, t1, c, d, th⟩] i2 t2 c d th
      = [⟨i2, t2, c, d, th⟩, ⟨i1, t1, c, d, th⟩] := by
    simp [saveArticle, h12]
  have e3 : saveArticle [⟨i2, t2, c, d, th⟩, ⟨i1, t1, c, d, th⟩] i3 t3 c d th
      = [⟨i3, t3, c, d, th⟩, ⟨i2, t2, c, d, th⟩, ⟨i1, t1, c, d, th⟩] := by
    simp [saveArticle, h13, h23]
  have e4 : saveArticle
      [⟨i3, t3, c, d, th⟩, ⟨i2, t2, c, d, th⟩, ⟨i1, t1, c, d, th⟩] i4 t4 c d th
      = [⟨i4, t4, c, d, th⟩, ⟨i3, t3, c, d, th⟩, ⟨i2, t2, c, d, th⟩] := by
    simp [saveArticle, h14, h24, h34, List.dropLast]
  have e5 : saveArticle
      [⟨i4, t4, c, d, th⟩, ⟨i3, t3, c, d, th⟩, ⟨i2, t2, c, d, th⟩] i5 t5 c d th
      = [⟨i5, t5, c, d, th⟩, ⟨i4, t4, c, d, th⟩, ⟨i3, t3, c, d, th⟩] := by
    simp [saveArticle, h25, h35, h45, List.dropLast]
  have efin : recordAll c d th [] [(i1, t1), (i2, t2), (i3, t3), (i4, t4), (i5, t5)]
      = [⟨i5, t5, c, d, th⟩, ⟨i4, t4, c, d, th⟩, ⟨i3, t3, c, d, th⟩] := by
    simp only [recordAll]
    rw [e1, e2, e3, e4, e5]
  refine ⟨by rw [efin]; rfl, ?_, ?_, ?_⟩
  · rw [efin]
    simp [h13, h14, h15]
  · rw [efin]
    simp [h23, h24, h25]
  · intro k
    rcases k with _ | _ | _ | _ | _ | k
    · simp [recordAll]
    · show (recordAll c d th [] [(i1, t1)]).length ≤ 3
      simp only [recordAll]
      rw [e1]
      simp
    · show (recordAll c d th [] [(i1, t1), (i2, t2)]).length ≤ 3
      simp only [recordAll]
      rw [e1, e2]
      simp
    · show (recordAll c d th [] [(i1, t1), (i2, t2), (i3, t3)]).length ≤ 3
      simp only [recordAll]
      rw [e1, e2, e3]
      simp
    · show (recordAll c d th [] [(i1, t1), (i2, t2), (i3, t3), (i4, t4)]).length ≤ 3
      simp only [recordAll]
      rw [e1, e2, e3, e4]
      simp
    · rw [List.take_of_length_le (by simp), efin]
      simp

/-- C6 witness: five concrete distinct titles. -/
theorem history_bounded_witness :
    (recordAll "c".data "d".data none []
        [("1".data, "A".data), ("2".data, "B".data), ("3".data, "C".data),
         ("4".data, "D".data), ("5".data, "E".data)]).map StoredArticle.title
      = ["E".data, "D".data, "C".data] :=
  (history_bounded "1".data "2".data "3".data "4".data "5".data
    "A".data "B".data "C".data "D".data "E".data "c".data "d".data none
    (by decide) (by decide) (by decide) (by decide) (by decide) (by decide)
    (by decide) (by decide) (by decide) (by decide)).1

/-- C7: recording a title that is already present is a no-op, and recording the
same title twice leaves the store identical to its state after the first
insert. -/
theorem history_dedup (history : List StoredArticle) (i t c d : List Char)
    (th : Option (List Char)) (i2 c2 d2 : List Char) (th2 : Option (List Char)) :
    (history.any (fun h => h.title == t) = true → saveArticle history i t c d th = history)
    ∧ saveArticle (saveArticle history i t c d th) i2 t c2 d2 th2
        = saveArticle history i t c d th := by
  constructor
  · intro h
    simp [saveArticle, h]
  · by_cases hmem : history.any (fun h => h.title == t) = true
    · simp [saveArticle, hmem]
    · have h1 : saveArticle history i t c d th
          = if 3 < (StoredArticle.mk i t c d th :: history).length
            then (StoredArticle.mk i t c d th :: history).dropLast
            else StoredArticle.mk i t c d th :: history := by
        simp [saveArticle, hmem]
      rw [h1]
      by_cases hlen : 3 < (StoredArticle.mk i t c d th :: history).length
      · rw [if_pos hlen]
        have hne : history ≠ [] := by
          intro h0
          rw [h0] at hlen
          simp at hlen
        have hdl : (StoredArticle.mk i t c d th :: history).dropLast
            = StoredArticle.mk i t c d th :: history.dropLast := by
          cases history with
          | nil => exact absurd rfl hne
          | cons a l => rfl
        rw [hdl]
        simp [saveArticle]
      · rw [if_neg hlen]
        simp [saveArticle]

/-- C7 witness: re-recording the title already stored leaves the single-entry
store unchanged. -/
theorem history_dedup_witness :
    ([⟨"1".data, "T".data, "c".data, "d".data, none⟩] : List StoredArticle).any
        (fun h => h.title == "T".data) = true
    ∧ saveArticle [⟨"1".data, "T".data, "c".data, "d".data, none⟩]
        "2".data "T".data "c".data "d".data none
      = [⟨"1".data, "T".data, "c".data, "d".data, none⟩] :=
  ⟨by decide,
   (history_dedup [⟨"1".data, "T".data, "c".data, "d".data, none⟩]
      "2".data "T".data "c".data "d".data none "9".data "x".data "y".data none).1
     (by decide)⟩

/-! ## Claim C9: continuation requests depend only on title and recent context
(`geminiService.generateMoreContent`)

The prompt interpolates `currentTitle` and `currentBodyContext.slice(-500)`
into a fixed template, and the request sent to the service carries only the
model name and that prompt. -/

/-- JS `s.slice(-n)`: the last `min(n, s.length)` characters. -/
def sliceLast (n : Nat) (s : List Char) : List Char := s.drop (s.length - n)

def continuationPrompt (currentTitle currentBodyContext : List Char) : List Char :=
  "\n    Jesteś tym samym nagradzanym blogerem.\n    \n    Kontekst: Piszesz artykuł pt. \"".data
  ++ currentTitle
  ++ "\".\n    Ostatnia część treści (kontekst): \"".data
  ++ sliceLast 500 currentBodyContext
  ++ "\"\n    \n    Zadanie: Napisz kolejną, logiczną sekcję tego artykułu (kontynuację).\n    Format: Markdown. Rozpocznij od nagłówka H2.\n    Styl: Ten sam co wcześniej - emocjonalny, dużo emoji, merytoryczny.\n    Długość: Około 200-300 słów.\n    Nie pisz podsumowania ani zakończenia (to już mamy). Po prostu rozwiń temat o kolejny wątek.\n  ".data

structure GenaiRequest where
  model : List Char
  contents : List Char
deriving DecidableEq

def generateMoreContentRequest (currentTitle currentBodyContext : List Char) : GenaiRequest :=
  ⟨"gemini-3-pro-preview".data, continuationPrompt currentTitle currentBodyContext⟩

/-- C9: two bodies agreeing on their last 500 characters produce identical
requests; every request equals the one built from only the last ≤500
characters of the body, and that context never exceeds 500 characters — the
full article is never included. -/
theorem continuation_context_bound (title b1 b2 : List Char)
    (h : sliceLast 500 b1 = sliceLast 500 b2) :
    generateMoreContentRequest title b1 = generateMoreContentRequest title b2
    ∧ (∀ t b, generateMoreContentRequest t b
        = generateMoreContentRequest t (sliceLast 500 b))
    ∧ ∀ b : List Char, (sliceLast 500 b).length ≤ 500 := by
  have hlen : ∀ b : List Char, (sliceLast 500 b).length ≤ 500 := by
    intro b
    rw [sliceLast, List.length_drop]
    omega
  have hidem : ∀ b : List Char, sliceLast 500 (sliceLast 500 b) = sliceLast 500 b := by
    intro b
    show (sliceLast 500 b).drop ((sliceLast 500 b).length - 500) = sliceLast 500 b
    rw [Nat.sub_eq_zero_of_le (hlen b), List.drop_zero]
  refine ⟨?_, ?_, hlen⟩
  · rw [generateMoreContentRequest, generateMoreContentRequest, continuationPrompt,
      continuationPrompt, h]
  · intro t b
    rw [generateMoreContentRequest, generateMoreContentRequest, continuationPrompt,
      continuationPrompt, hidem]

set_option maxRecDepth 40000 in
/-- C9 witness: two bodies differing only in their first character (before the
last-500 window) yield the same request. -/
theorem continuation_context_bound_witness :
    sliceLast 500 ('x' :: List.replicate 500 'a')
        = sliceLast 500 ('y' :: List.replicate 500 'a')
    ∧ generateMoreContentRequest "T".data ('x' :: List.replicate 500 'a')
        = generateMoreContentRequest "T".data ('y' :: List.replicate 500 'a') :=
  ⟨by decide,
   (continuation_context_bound "T".data ('x' :: List.replicate 500 'a')
      ('y' :: List.replicate 500 'a') (by decide)).1⟩

/-! ## Claim C10: image result wraps the first inline-data part as PNG
(`geminiService.generateBlogImage`)

The response handler iterates over the candidate parts, returns
`"data:image/png;base64," + part.inlineData.data` for the first part that
carries `inlineData`, and throws when none does (modelled as `none`). -/

structure GenaiInlineData where
  mimeType : List Char
  data : List Char
deriving DecidableEq

structure GenaiPart where
  text : Option (List Char)
  inlineData : Option GenaiInlineData
deriving DecidableEq

def generateBlogImageResult : List GenaiPart → Option (List Char)
  | [] => none
  | p :: rest =>
    match p.inlineData with
    | some d => some ("data:image/png;base64,".data ++ d.data)
    | none => generateBlogImageResult rest

/-- C10: when a part carrying inline data exists, the result is exactly the
bytes of the first such part behind the fixed `data:image/png;base64,` prefix
— whatever mime type the service declared for those bytes, and whatever parts
follow the first image part. -/
theorem image_first_part_png (pre : List GenaiPart) (p : GenaiPart)
    (post : List GenaiPart) (d : GenaiInlineData)
    (hpre : ∀ q ∈ pre, q.inlineData = none) (hp : p.inlineData = some d) :
    generateBlogImageResult (pre ++ p :: post)
      = some ("data:image/png;base64,".data ++ d.data) := by
  induction pre with
  | nil =>
    show generateBlogImageResult (p :: post) = _
    rw [generateBlogImageResult, hp]
  | cons q qs ih =>
    have hq : q.inlineData = none := hpre q (List.mem_cons_self q qs)
    rw [List.cons_append, generateBlogImageResult, hq]
    exact ih fun r hr => hpre r (List.mem_cons_of_mem q hr)

/-- C10 witness: a text part precedes an image part declared as JPEG; the
result still gets the PNG prefix, and a later image part is ignored. -/
theorem image_first_part_png_witness :
    (∀ q ∈ [(⟨some "hi".data, none⟩ : GenaiPart)], q.inlineData = none)
    ∧ generateBlogImageResult
        [⟨some "hi".data, none⟩,
         ⟨none, some ⟨"image/jpeg".data, "QUJD".data⟩⟩,
         ⟨none, some ⟨"text/plain".data, "WW".data⟩⟩]
      = some ("data:image/png;base64,".data ++ "QUJD".data) :=
  ⟨by decide,
   image_first_part_png [⟨some "hi".data, none⟩]
     ⟨none, some ⟨"image/jpeg".data, "QUJD".data⟩⟩
     [⟨none, some ⟨"text/plain".data, "WW".data⟩⟩]
     ⟨"image/jpeg".data, "QUJD".data⟩ (by decide) rfl⟩

/-! ## Claim C4: topic-suggestion extraction
(`geminiService.generateTrendingTopics`)

The response text is cleaned by the global replacements
`.replace(/```json/g, '').replace(/```/g, '')`, then matched against the
greedy regex `/\[[\s\S]*\]/`, which succeeds exactly when a `[` precedes the
last `]` and then spans from the first such `[` to the last `]`.  Without a
match, `topics` stays `[]`; with a match, `JSON.parse(jsonMatch[0])` runs
unguarded inside the outer `try`, whose `catch` rethrows — a parse failure is
modelled as `Except.error ()` escaping to the caller. -/

def removeAllSubAux (pat : List Char) : Nat → List Char → List Char
  | _, [] => []
  | 0, s => s
  | fuel + 1, c :: rest =>
    if pat.isPrefixOf (c :: rest) then
      removeAllSubAux pat fuel ((c :: rest).drop pat.length)
    else
      c :: removeAllSubAux pat fuel rest

/-- JS `s.replace(pat-as-literal-regex/g, '')`: delete every non-overlapping
occurrence of `pat`, scanning left to right. -/
def removeAllSub (pat s : List Char) : List Char := removeAllSubAux pat s.length s

def cleanTopicsText (s : List Char) : List Char :=
  removeAllSub "```".data (removeAllSub "```json".data s)

/-- Index of the last `]`, if any. -/
def lastCloseIdx (s : List Char) : Option Nat :=
  match s.reverse.findIdx? (· == ']') with
  | some k => some (s.length - 1 - k)
  | none => none

/-- `cleanText.match(/\[[\s\S]*\]/)`: the substring from the first `[` to the
last `]`, when the former strictly precedes the latter. -/
def findArrayMatch (s : List Char) : Option (List Char) :=
  match s.findIdx? (· == '['), lastCloseIdx s with
  | some i, some j => if i < j then some ((s.drop i).take (j - i + 1)) else none
  | _, _ => none

def extractTopics (text : List Char) : Except Unit Json :=
  match findArrayMatch (cleanTopicsText text) with
  | none => Except.ok (Json.arr [])
  | some sub =>
    match parseJson sub with
    | some j => Except.ok j
    | none => Except.error ()

set_option maxRecDepth 40000 in
/-- C4, counterexample: a response embedding a bracketed substring that is not
valid JSON makes the extraction end in the rethrown parse exception
(`Except.error ()`) — not in an empty sequence with a reported failure: no
`Except.ok` value is produced at all. -/
theorem topics_parse_failure_counterexample :
    extractTopics "Oto tematy: [nie-json] koniec".data = Except.error ()
    ∧ ∀ j : Json, extractTopics "Oto tematy: [nie-json] koniec".data ≠ Except.ok j := by
  refine ⟨rfl, ?_⟩
  intro j h
  rw [show extractTopics "Oto tematy: [nie-json] koniec".data = Except.error () from rfl] at h
  exact Except.noConfusion h

set_option maxRecDepth 40000 in
/-- C4 (amended): the spec's example response (commentary around a well-formed
array) extracts exactly the parsed array; a response with no array substring
yields the empty array; but when the located substring fails to parse, the
exception propagates (`Except.error ()`) instead of an empty sequence with a
reported failure. -/
theorem topics_extraction_amended :
    extractTopics "Here are some ideas:\n[\x7b\"title\":\"X\",\"description\":\"Y\"\x7d]\nHope this helps!".data
      = Except.ok (Json.arr [Json.obj
          [("title".data, Json.str "X".data), ("description".data, Json.str "Y".data)]])
    ∧ (∀ text : List Char, findArrayMatch (cleanTopicsText text) = none →
        extractTopics text = Except.ok (Json.arr []))
    ∧ (∀ (text sub : List Char) (j : Json),
        findArrayMatch (cleanTopicsText text) = some sub → parseJson sub = some j →
        extractTopics text = Except.ok j)
    ∧ ∀ text sub : List Char,
        findArrayMatch (cleanTopicsText text) = some sub → parseJson sub = none →
        extractTopics text = Except.error () := by
  refine ⟨rfl, ?_, ?_, ?_⟩
  · intro text h
    rw [extractTopics, h]
  · intro text sub j h1 h2
    rw [extractTopics, h1]
    show (match parseJson sub with
      | some v => Except.ok v
      | none => Except.error ()) = Except.ok j
    rw [h2]
  · intro text sub h1 h2
    rw [extractTopics, h1]
    show (match parseJson sub with
      | some v => Except.ok v
      | none => Except.error ()) = Except.error ()
    rw [h2]

set_option maxRecDepth 40000 in
/-- C4 witness: a commentary-wrapped numeric array is matched and parsed. -/
theorem topics_extraction_amended_witness :
    findArrayMatch (cleanTopicsText "abc [1,2] xyz".data) = some "[1,2]".data
    ∧ parseJson "[1,2]".data = some (Json.arr [Json.num 1, Json.num 2])
    ∧ extractTopics "abc [1,2] xyz".data
        = Except.ok (Json.arr [Json.num 1, Json.num 2]) :=
  ⟨rfl, rfl,
   topics_extraction_amended.2.2.1 "abc [1,2] xyz".data "[1,2]".data
     (Json.arr [Json.num 1, Json.num 2]) rfl rfl⟩
